import Mathlib

/-!
Quark proof-of-work hash: chain driver, branch predicate and Python binding

A shallow embedding of `src/core/constants.h`, `src/core/hash_step.{h,c}`,
`src/core/quark_algorithm.c`, `include/quark/quark.h` and
`src/bindings/python_module.c`.

C objects live in a block-structured byte memory (`World.mem`): a pointer is a
block identifier with a byte offset, every access is bounds-checked against its
block, and an access outside its block has no defined result (`none`).  Bytes
are natural numbers; 32-bit words are natural numbers reduced modulo `2 ^ 32`.
The sphlib primitives and the CPython runtime are not part of the repository:
the former are a parameter (`Sph`), the latter is modelled after its documented
C API.  A ghost trace records every primitive invocation and every evaluation of
the branch predicate.  The binding is given a second time on the flat address
space of the machine (`quark_getpowhash_flat`), where the memory that lies
behind the argument's buffer is readable.
-/

namespace Quark

/-! ## `src/core/constants.h` and `include/quark/quark.h` -/

def QUARK_BLOCK_HEADER_SIZE : Nat := 80
def QUARK_INTERMEDIATE_SIZE : Nat := 64
def QUARK_OUTPUT_SIZE : Nat := 32
def HASH_BUFFER_UINT32_LEN : Nat := 16
def QUARK_BRANCH_BIT : Nat := 3
def QUARK_BRANCH_MASK : Nat := (1 <<< QUARK_BRANCH_BIT) % 2 ^ 32
def QUARK_TOTAL_ROUNDS : Nat := 9
def QUARK_CONDITIONAL_ROUNDS : Nat := 3
def QUARK_INPUT_SIZE : Nat := 80
def QUARK_DIGEST_SIZE : Nat := 32

/-! ## Memory -/

/-- Byte order of the host: how a `uint32_t` object is laid out in memory.  The
C source does not fix it. -/
inductive ByteOrder
  | little
  | big
deriving DecidableEq, Repr

/-- A pointer: a block of the memory and a byte offset into it. -/
structure Ptr where
  block : Nat
  off : Nat
deriving DecidableEq, Repr

/-- The six sphlib primitives. -/
inductive Prim
  | blake
  | bmw
  | groestl
  | jh
  | keccak
  | skein
deriving DecidableEq, Repr

/-- Ghost events.  `hash p len data digest`: one init/update/close run of
primitive `p` that was handed length `len`, read the bytes `data` and wrote
`digest`.  `branch taken`: one evaluation of `quark_should_branch`. -/
inductive Event
  | hash (p : Prim) (len : Nat) (data : List Nat) (digest : List Nat)
  | branch (taken : Bool)
deriving DecidableEq, Repr

/-- The machine state.  `mem` lists the blocks ever allocated (`none` once
freed), `trace` is the ghost trace, `fresh b i` is the indeterminate byte found
at offset `i` of block `b` when that block is handed out uninitialised. -/
structure World where
  mem : List (Option (List Nat))
  trace : List Event
  fresh : Nat → Nat → Nat

namespace World

/-- Read `n` bytes at `p`; `none` when the range is not inside a live block. -/
def load (w : World) (p : Ptr) (n : Nat) : Option (List Nat) :=
  match w.mem[p.block]? with
  | some (some blk) =>
    if p.off + n ≤ blk.length then some ((blk.drop p.off).take n) else none
  | _ => none

/-- Write `data` at `p`; `none` when the range is not inside a live block. -/
def store (w : World) (p : Ptr) (data : List Nat) : Option World :=
  match w.mem[p.block]? with
  | some (some blk) =>
    if p.off + data.length ≤ blk.length then
      let blk' := blk.take p.off ++ data ++ blk.drop (p.off + data.length)
      some { w with mem := w.mem.set p.block (some blk') }
    else none
  | _ => none

/-- A new block of `size` uninitialised bytes. -/
def alloca (w : World) (size : Nat) : World × Ptr :=
  let junk := (List.range size).map (fun i => w.fresh w.mem.length i % 256)
  ({ w with mem := w.mem ++ [some junk] }, ⟨w.mem.length, 0⟩)

/-- A new block holding `init`. -/
def allocInit (w : World) (init : List Nat) : World × Ptr :=
  ({ w with mem := w.mem ++ [some init] }, ⟨w.mem.length, 0⟩)

/-- End of the lifetime of the block of `p`. -/
def free (w : World) (p : Ptr) : World :=
  { w with mem := w.mem.set p.block none }

/-- Append an event to the ghost trace. -/
def log (w : World) (e : Event) : World :=
  { w with trace := w.trace ++ [e] }

end World

/-- Value of a `uint32_t` object whose four bytes are `b0 b1 b2 b3` in
increasing address order. -/
def decode32 (bo : ByteOrder) (b0 b1 b2 b3 : Nat) : Nat :=
  match bo with
  | .little => (b0 + 2 ^ 8 * b1 + 2 ^ 16 * b2 + 2 ^ 24 * b3) % 2 ^ 32
  | .big => (2 ^ 24 * b0 + 2 ^ 16 * b1 + 2 ^ 8 * b2 + b3) % 2 ^ 32

/-- Element `i` of the `uint32_t` array stored in the byte list `bytes`. -/
def wordAt (bo : ByteOrder) (bytes : List Nat) (i : Nat) : Option Nat :=
  match (bytes.drop (4 * i)).take 4 with
  | [b0, b1, b2, b3] => some (decode32 bo b0 b1 b2 b3)
  | _ => none

/-- The lvalue `p[i]` for `p : const uint32_t *`: read four bytes at byte
offset `4 * i` from `p` and decode them in host order. -/
def World.loadWord (w : World) (bo : ByteOrder) (p : Ptr) (i : Nat) : Option Nat :=
  match w.load ⟨p.block, p.off + 4 * i⟩ 4 with
  | some bytes => wordAt bo bytes 0
  | none => none

/-! ## `src/core/hash_step.h`: the branch predicate -/

/-- Source function `quark_should_branch`: `(hash[0] & QUARK_BRANCH_MASK) != 0`.  The array
parameter decays to a pointer, modelled by its element accessor `hash`. -/
def quark_should_branch (hash : Nat → Option Nat) : Option Bool :=
  match hash 0 with
  | some w0 => some ((w0 &&& QUARK_BRANCH_MASK) != 0)
  | none => none

/-! ## sphlib (external): the primitive provider -/

/-- One sphlib hash function, as `hash_step.c` uses it: a context type with
`sph_X_init`, `sph_X` (absorb bytes) and `sph_X_close` (the digest bytes written
to the destination). -/
structure SphAlg where
  Ctx : Type
  init : Ctx
  update : Ctx → List Nat → Ctx
  close : Ctx → List Nat

/-- The six sphlib functions that `hash_step.c` includes. -/
structure Sph where
  blake512 : SphAlg
  bmw512 : SphAlg
  groestl512 : SphAlg
  jh512 : SphAlg
  keccak512 : SphAlg
  skein512 : SphAlg

/-- Digest of a byte sequence: init, one update, close. -/
def SphAlg.digest (alg : SphAlg) (data : List Nat) : List Nat :=
  alg.close (alg.update alg.init data)

/-- Every primitive writes a 512-bit digest. -/
def Sph.Is512 (sph : Sph) : Prop :=
  ∀ data : List Nat,
    (sph.blake512.digest data).length = 64 ∧ (sph.bmw512.digest data).length = 64 ∧
    (sph.groestl512.digest data).length = 64 ∧ (sph.jh512.digest data).length = 64 ∧
    (sph.keccak512.digest data).length = 64 ∧ (sph.skein512.digest data).length = 64

/-! ## `src/core/hash_step.c` -/

/-- Wrapper `hash_blake512(input, len, output)`. -/
def hash_blake512 (sph : Sph) (w : World) (input : Ptr) (len : Nat) (output : Ptr) :
    Option World := do
  let ctx := sph.blake512.init
  let data ← w.load input len
  let ctx := sph.blake512.update ctx data
  let w ← w.store output (sph.blake512.close ctx)
  pure (w.log (Event.hash Prim.blake len data (sph.blake512.close ctx)))

/-- Wrapper `hash_bmw512(input, len, output)`. -/
def hash_bmw512 (sph : Sph) (w : World) (input : Ptr) (len : Nat) (output : Ptr) :
    Option World := do
  let ctx := sph.bmw512.init
  let data ← w.load input len
  let ctx := sph.bmw512.update ctx data
  let w ← w.store output (sph.bmw512.close ctx)
  pure (w.log (Event.hash Prim.bmw len data (sph.bmw512.close ctx)))

/-- Wrapper `hash_groestl512(input, len, output)`. -/
def hash_groestl512 (sph : Sph) (w : World) (input : Ptr) (len : Nat) (output : Ptr) :
    Option World := do
  let ctx := sph.groestl512.init
  let data ← w.load input len
  let ctx := sph.groestl512.update ctx data
  let w ← w.store output (sph.groestl512.close ctx)
  pure (w.log (Event.hash Prim.groestl len data (sph.groestl512.close ctx)))

/-- Wrapper `hash_jh512(input, len, output)`. -/
def hash_jh512 (sph : Sph) (w : World) (input : Ptr) (len : Nat) (output : Ptr) :
    Option World := do
  let ctx := sph.jh512.init
  let data ← w.load input len
  let ctx := sph.jh512.update ctx data
  let w ← w.store output (sph.jh512.close ctx)
  pure (w.log (Event.hash Prim.jh len data (sph.jh512.close ctx)))

/-- Wrapper `hash_keccak512(input, len, output)`. -/
def hash_keccak512 (sph : Sph) (w : World) (input : Ptr) (len : Nat) (output : Ptr) :
    Option World := do
  let ctx := sph.keccak512.init
  let data ← w.load input len
  let ctx := sph.keccak512.update ctx data
  let w ← w.store output (sph.keccak512.close ctx)
  pure (w.log (Event.hash Prim.keccak len data (sph.keccak512.close ctx)))

/-- Wrapper `hash_skein512(input, len, output)`. -/
def hash_skein512 (sph : Sph) (w : World) (input : Ptr) (len : Nat) (output : Ptr) :
    Option World := do
  let ctx := sph.skein512.init
  let data ← w.load input len
  let ctx := sph.skein512.update ctx data
  let w ← w.store output (sph.skein512.close ctx)
  pure (w.log (Event.hash Prim.skein len data (sph.skein512.close ctx)))

/-! ## `src/core/quark_algorithm.c` -/

/-- Library function `memcpy(dst, src, n)` for non-overlapping ranges. -/
def memcpy (w : World) (dst src : Ptr) (n : Nat) : Option World := do
  let bytes ← w.load src n
  w.store dst bytes

/-- The controlling expression `quark_should_branch(hash)` of an `if` of the
driver: the predicate applied to the `uint32_t` view of the buffer at `hash`,
with the evaluation recorded in the ghost trace. -/
def evalBranch (bo : ByteOrder) (w : World) (hash : Ptr) : Option (World × Bool) := do
  let taken ← quark_should_branch (w.loadWord bo hash)
  pure (w.log (Event.branch taken), taken)

/-- Source function `quark_hash(input, output)`, statement by statement.  `state` and
`next_state` are automatic `Hash512` objects: allocated uninitialised on entry,
dead on return. -/
def quark_hash (sph : Sph) (bo : ByteOrder) (w : World) (input output : Ptr) :
    Option World := do
  let (w, state) := w.alloca (4 * HASH_BUFFER_UINT32_LEN)
  let (w, next_state) := w.alloca (4 * HASH_BUFFER_UINT32_LEN)
  -- Round 1: Blake512
  let w ← hash_blake512 sph w input QUARK_BLOCK_HEADER_SIZE state
  -- Round 2: BMW512
  let w ← hash_bmw512 sph w state QUARK_INTERMEDIATE_SIZE next_state
  -- Round 3: Groestl512 or Skein512
  let (w, taken) ← evalBranch bo w next_state
  let w ←
    (if taken then hash_groestl512 sph w next_state QUARK_INTERMEDIATE_SIZE state
     else hash_skein512 sph w next_state QUARK_INTERMEDIATE_SIZE state)
  -- Round 4: Groestl512
  let w ← hash_groestl512 sph w state QUARK_INTERMEDIATE_SIZE next_state
  -- Round 5: JH512
  let w ← hash_jh512 sph w next_state QUARK_INTERMEDIATE_SIZE state
  -- Round 6: Blake512 or BMW512
  let (w, taken) ← evalBranch bo w state
  let w ←
    (if taken then hash_blake512 sph w state QUARK_INTERMEDIATE_SIZE next_state
     else hash_bmw512 sph w state QUARK_INTERMEDIATE_SIZE next_state)
  -- Round 7: Keccak512
  let w ← hash_keccak512 sph w next_state QUARK_INTERMEDIATE_SIZE state
  -- Round 8: Skein512
  let w ← hash_skein512 sph w state QUARK_INTERMEDIATE_SIZE next_state
  -- Round 9: Keccak512 or JH512
  let (w, taken) ← evalBranch bo w next_state
  let w ←
    (if taken then hash_keccak512 sph w next_state QUARK_INTERMEDIATE_SIZE state
     else hash_jh512 sph w next_state QUARK_INTERMEDIATE_SIZE state)
  -- Output: first 256 bits of the final 512-bit hash
  let w ← memcpy w output state QUARK_OUTPUT_SIZE
  pure ((w.free next_state).free state)

/-! ## CPython C API (external), as far as `python_module.c` uses it -/

/-- Python objects, as far as the binding can tell them apart. -/
inductive PyObject
  | bytes (ob_sval : List Nat)
  | bytearray (data : List Nat)
  | str (s : String)
  | int (n : Int)
  | None
deriving DecidableEq, Repr

/-- The exceptions the binding can leave set. -/
inductive PyExc
  | TypeError
  | MemoryError
deriving DecidableEq, Repr

/-- What a C function of type `PyObject *` hands back: a new reference, or
`NULL` with an exception set. -/
inductive PyReturn
  | object (o : PyObject)
  | null (exc : PyExc)
deriving DecidableEq, Repr

/-- Whether the allocator can serve the two requests of one call. -/
structure PyRuntime where
  malloc_ok : Bool
  object_ok : Bool
deriving DecidableEq, Repr

/-- Library call `PyArg_ParseTuple(args, "S", &input)`: succeeds exactly when `args` is a
one-element tuple holding a bytes object, which it stores without conversion;
otherwise it sets `TypeError` and returns 0 (`none`). -/
def PyArg_ParseTuple_S (args : List PyObject) : Option (List Nat) :=
  match args with
  | [PyObject.bytes ob_sval] => some ob_sval
  | _ => none

/-- Library function `PyMem_Malloc(n)`: a new uninitialised block, or `NULL`. -/
def PyMem_Malloc (rt : PyRuntime) (w : World) (n : Nat) : World × Option Ptr :=
  if rt.malloc_ok then ((w.alloca n).1, some (w.alloca n).2) else (w, none)

/-- Library function `PyBytes_AS_STRING(op)`: pointer to the internal buffer of a bytes object,
which holds `ob_size + 1` bytes, the last one a NUL.  The buffer is made visible
as a block of the byte memory. -/
def PyBytes_AS_STRING (w : World) (ob_sval : List Nat) : World × Ptr :=
  w.allocInit (ob_sval ++ [0])

/-- Library call `Py_BuildValue("y#", p, n)`: a new bytes object holding the `n` bytes at
`p`, or `NULL` with `MemoryError` when the object cannot be allocated. -/
def Py_BuildValue_y (rt : PyRuntime) (w : World) (p : Ptr) (n : Nat) : Option PyReturn :=
  if rt.object_ok then
    match w.load p n with
    | some data => some (PyReturn.object (PyObject.bytes data))
    | none => none
  else some (PyReturn.null PyExc.MemoryError)

/-- Library function `PyMem_Free(p)`. -/
def PyMem_Free (w : World) (p : Ptr) : World := w.free p

/-! ## `src/bindings/python_module.c` -/

/-- Source function `quark_getpowhash(self, args)`, the C function behind `getPoWHash`.  The
reference count of `input` is raised and lowered again around the call and is
not part of the state. -/
def quark_getpowhash (sph : Sph) (bo : ByteOrder) (rt : PyRuntime) (w : World)
    (args : List PyObject) : Option (World × PyReturn) :=
  -- Parse arguments - expects a bytes object
  match PyArg_ParseTuple_S args with
  | none => some (w, PyReturn.null PyExc.TypeError)
  | some input =>
    -- Allocate output buffer
    match PyMem_Malloc rt w QUARK_DIGEST_SIZE with
    | (w, none) => some (w, PyReturn.null PyExc.MemoryError)
    | (w, some output) => do
      -- Compute the hash
      let (w, buf) := PyBytes_AS_STRING w input
      let w ← quark_hash sph bo w buf output
      -- Build return value as bytes object
      let result ← Py_BuildValue_y rt w output QUARK_DIGEST_SIZE
      -- Free output buffer
      let w := PyMem_Free w output
      pure (w, result)

/-- A stand-in primitive for evaluating the driver on concrete inputs: the
context is a running polynomial checksum started at `salt`, the digest is 64
bytes derived from it. -/
def sampleAlg (salt : Nat) : SphAlg where
  Ctx := Nat
  init := salt
  update ctx data := data.foldl (fun a x => (a * 31 + x + 1) % 65521) ctx
  close ctx := (List.range 64).map (fun i => (ctx * (2 * i + 1) + i * i) % 256)

/-- Six distinguishable stand-in primitives. -/
def sampleSph : Sph where
  blake512 := sampleAlg 1
  bmw512 := sampleAlg 2
  groestl512 := sampleAlg 3
  jh512 := sampleAlg 4
  keccak512 := sampleAlg 5
  skein512 := sampleAlg 6

/-! ## Reference descriptions used by the statements -/

/-- The common shape of the six wrappers of `hash_step.c`. -/
def hashStep (alg : SphAlg) (p : Prim) (w : World) (input : Ptr) (len : Nat) (output : Ptr) :
    Option World :=
  match w.load input len with
  | some data =>
    match w.store output (alg.digest data) with
    | some w1 => some (w1.log (Event.hash p len data (alg.digest data)))
    | none => none
  | none => none

/-- The decision `quark_should_branch` takes on a buffer holding the bytes `b`,
read as a `uint32_t` array in byte order `bo`. -/
def branchOf (bo : ByteOrder) (b : List Nat) : Bool :=
  quark_should_branch (wordAt bo b) == some true

/-- The nine-round chain in the words of the specification: `R1 .. R9` over six
digest functions and a predicate `P`, truncated to 32 bytes. -/
def specChain (Blake512 BMW512 Groestl512 JH512 Keccak512 Skein512 : List Nat → List Nat)
    (P : List Nat → Bool) (h : List Nat) : List Nat :=
  let R1 := Blake512 h
  let R2 := BMW512 R1
  let R3 := if P R2 then Groestl512 R2 else Skein512 R2
  let R4 := Groestl512 R3
  let R5 := JH512 R4
  let R6 := if P R5 then Blake512 R5 else BMW512 R5
  let R7 := Keccak512 R6
  let R8 := Skein512 R7
  let R9 := if P R8 then Keccak512 R8 else JH512 R8
  R9.take 32

/-- Output of round 1. -/
def round1 (sph : Sph) (h : List Nat) : List Nat := sph.blake512.digest h

/-- Output of round 2. -/
def round2 (sph : Sph) (h : List Nat) : List Nat := sph.bmw512.digest (round1 sph h)

/-- Output of round 3. -/
def round3 (sph : Sph) (bo : ByteOrder) (h : List Nat) : List Nat :=
  if branchOf bo (round2 sph h) then sph.groestl512.digest (round2 sph h)
  else sph.skein512.digest (round2 sph h)

/-- Output of round 4. -/
def round4 (sph : Sph) (bo : ByteOrder) (h : List Nat) : List Nat :=
  sph.groestl512.digest (round3 sph bo h)

/-- Output of round 5. -/
def round5 (sph : Sph) (bo : ByteOrder) (h : List Nat) : List Nat :=
  sph.jh512.digest (round4 sph bo h)

/-- Output of round 6. -/
def round6 (sph : Sph) (bo : ByteOrder) (h : List Nat) : List Nat :=
  if branchOf bo (round5 sph bo h) then sph.blake512.digest (round5 sph bo h)
  else sph.bmw512.digest (round5 sph bo h)

/-- Output of round 7. -/
def round7 (sph : Sph) (bo : ByteOrder) (h : List Nat) : List Nat :=
  sph.keccak512.digest (round6 sph bo h)

/-- Output of round 8. -/
def round8 (sph : Sph) (bo : ByteOrder) (h : List Nat) : List Nat :=
  sph.skein512.digest (round7 sph bo h)

/-- Output of round 9. -/
def round9 (sph : Sph) (bo : ByteOrder) (h : List Nat) : List Nat :=
  if branchOf bo (round8 sph bo h) then sph.keccak512.digest (round8 sph bo h)
  else sph.jh512.digest (round8 sph bo h)

/-- The events one run of the chain over the header `h` appends to the trace. -/
def chainTrace (sph : Sph) (bo : ByteOrder) (h : List Nat) : List Event :=
  [ Event.hash Prim.blake 80 h (round1 sph h),
    Event.hash Prim.bmw 64 (round1 sph h) (round2 sph h),
    Event.branch (branchOf bo (round2 sph h)),
    Event.hash (if branchOf bo (round2 sph h) then Prim.groestl else Prim.skein) 64
      (round2 sph h) (round3 sph bo h),
    Event.hash Prim.groestl 64 (round3 sph bo h) (round4 sph bo h),
    Event.hash Prim.jh 64 (round4 sph bo h) (round5 sph bo h),
    Event.branch (branchOf bo (round5 sph bo h)),
    Event.hash (if branchOf bo (round5 sph bo h) then Prim.blake else Prim.bmw) 64
      (round5 sph bo h) (round6 sph bo h),
    Event.hash Prim.keccak 64 (round6 sph bo h) (round7 sph bo h),
    Event.hash Prim.skein 64 (round7 sph bo h) (round8 sph bo h),
    Event.branch (branchOf bo (round8 sph bo h)),
    Event.hash (if branchOf bo (round8 sph bo h) then Prim.keccak else Prim.jh) 64
      (round8 sph bo h) (round9 sph bo h) ]

/-- One primitive invocation, as read off the trace. -/
structure HashCall where
  prim : Prim
  len : Nat
  data : List Nat
  digest : List Nat
deriving DecidableEq, Repr

/-- The primitive invocations recorded in a trace, in order. -/
def hashCalls (evs : List Event) : List HashCall :=
  evs.filterMap (fun e =>
    match e with
    | Event.hash p len data digest => some ⟨p, len, data, digest⟩
    | Event.branch _ => none)

/-- The decisions of the predicate evaluations recorded in a trace, in order. -/
def branchEvals (evs : List Event) : List Bool :=
  evs.filterMap (fun e =>
    match e with
    | Event.hash _ _ _ _ => none
    | Event.branch taken => some taken)

/-- Whether an event is a primitive invocation (`true`) or a predicate
evaluation (`false`). -/
def Event.isHash (e : Event) : Bool :=
  match e with
  | Event.hash _ _ _ _ => true
  | Event.branch _ => false

/-- A memory for the examples: block 0 is an 80-byte header `0, 1, .., 79`,
block 1 a 40-byte buffer filled with `9`. -/
def sampleWorld : World :=
  ⟨[some (List.range 80), some (List.replicate 40 9)], [], fun _ _ => 0⟩

/-- A second machine state for the examples: the header `0 .. 79` sits at offset
1 of block 1, block 0 is a 32-byte buffer, an earlier event is already in the
trace and uninitialised storage holds other bytes. -/
def sampleWorld2 : World :=
  ⟨[some (List.replicate 32 1), some (7 :: List.range 80)], [Event.branch true],
    fun b i => b + i⟩

/-- A third machine state for the examples: block 0 holds 100 bytes, the header
`0 .. 79` followed by twenty bytes `255`; block 1 is a 32-byte buffer. -/
def sampleWorld3 : World :=
  ⟨[some (List.range 80 ++ List.replicate 20 255), some (List.replicate 32 0)], [],
    fun _ _ => 1⟩

/-- The header `k, k + 1, .., k + 79`. -/
def sampleHeader (k : Nat) : List Nat := (List.range 80).map (fun i => i + k)

/-- A degenerate primitive: the digest is 64 zero bytes whatever the input. -/
def zeroAlg : SphAlg where
  Ctx := Unit
  init := ()
  update _ _ := ()
  close _ := List.replicate 64 0

/-- Six copies of the degenerate primitive. -/
def zeroSph : Sph where
  blake512 := zeroAlg
  bmw512 := zeroAlg
  groestl512 := zeroAlg
  jh512 := zeroAlg
  keccak512 := zeroAlg
  skein512 := zeroAlg

end Quark

/-! ## Memory and execution lemmas -/

namespace Quark

theorem hash_blake512_eq (sph : Sph) (w : World) (i : Ptr) (l : Nat) (o : Ptr) :
    hash_blake512 sph w i l o = hashStep sph.blake512 Prim.blake w i l o := by
  unfold hash_blake512 hashStep SphAlg.digest
  cases h1 : w.load i l with
  | none => rfl
  | some d =>
    cases h2 : w.store o (sph.blake512.close (sph.blake512.update sph.blake512.init d)) with
    | none => simp [h2]
    | some w1 => simp [h2]

theorem getElem?_frame0 {α : Type} (base : List α) (a b : α) :
    (base ++ [a, b])[base.length]? = some a := by
  rw [List.getElem?_append_right (Nat.le_refl _)]; simp

theorem getElem?_frame1 {α : Type} (base : List α) (a b : α) :
    (base ++ [a, b])[base.length + 1]? = some b := by
  rw [List.getElem?_append_right (Nat.le_succ _)]; simp

theorem getElem?_frame_lt {α : Type} (base l : List α) (i : Nat) (x : α) (h : base[i]? = some x) :
    (base ++ l)[i]? = some x := by
  have hi : i < base.length := by
    by_contra hc
    rw [List.getElem?_eq_none (by omega)] at h
    cases h
  rw [List.getElem?_append_left hi]; exact h

theorem set_frame0 {α : Type} (base : List α) (a b v : α) :
    (base ++ [a, b]).set base.length v = base ++ [v, b] := by
  simp

theorem set_frame1 {α : Type} (base : List α) (a b v : α) :
    (base ++ [a, b]).set (base.length + 1) v = base ++ [a, v] := by
  simp

theorem set_frame_lt {α : Type} (base l : List α) (i : Nat) (x v : α) (h : base[i]? = some x) :
    (base ++ l).set i v = base.set i v ++ l := by
  have hi : i < base.length := by
    by_contra hc
    rw [List.getElem?_eq_none (by omega)] at h
    cases h
  rw [List.set_append_left _ _ hi]

theorem wordAt_zero_of_length (bo : ByteOrder) (b : List Nat) (hb : 4 ≤ b.length) :
    ∃ v, wordAt bo b 0 = some v := by
  match b, hb with
  | b0 :: b1 :: b2 :: b3 :: t, _ => exact ⟨_, rfl⟩

theorem wordAt_take (bo : ByteOrder) (b : List Nat) : wordAt bo (b.take 4) 0 = wordAt bo b 0 := by
  unfold wordAt
  simp [List.take_take]

theorem quark_should_branch_wordAt (bo : ByteOrder) (b : List Nat) (hb : 4 ≤ b.length) :
    quark_should_branch (wordAt bo b) = some (branchOf bo b) := by
  obtain ⟨v, hv⟩ := wordAt_zero_of_length bo b hb
  unfold branchOf quark_should_branch
  rw [hv]
  cases h : ((v &&& QUARK_BRANCH_MASK) != 0) <;> simp [h]

theorem load_frame0 (base : List (Option (List Nat))) (s n : List Nat) (tr : List Event)
    (fr : Nat → Nat → Nat) (k : Nat) (hk : k ≤ s.length) :
    World.load ⟨base ++ [some s, some n], tr, fr⟩ ⟨base.length, 0⟩ k = some (s.take k) := by
  simp only [World.load]
  rw [getElem?_frame0]
  simp [hk]

theorem load_frame1 (base : List (Option (List Nat))) (s n : List Nat) (tr : List Event)
    (fr : Nat → Nat → Nat) (k : Nat) (hk : k ≤ n.length) :
    World.load ⟨base ++ [some s, some n], tr, fr⟩ ⟨base.length + 1, 0⟩ k = some (n.take k) := by
  simp only [World.load]
  rw [getElem?_frame1]
  simp [hk]

theorem load_frame_lt (base l : List (Option (List Nat))) (tr tr' : List Event)
    (fr fr' : Nat → Nat → Nat) (p : Ptr) (k : Nat) (h : List Nat)
    (hl : World.load ⟨base, tr, fr⟩ p k = some h) :
    World.load ⟨base ++ l, tr', fr'⟩ p k = some h := by
  unfold World.load at hl ⊢
  simp only at hl ⊢
  cases hb : base[p.block]? with
  | none => simp [hb] at hl
  | some ob =>
    rw [getElem?_frame_lt base l p.block ob hb]
    rw [hb] at hl
    exact hl

theorem store_frame0 (base : List (Option (List Nat))) (s n d : List Nat) (tr : List Event)
    (fr : Nat → Nat → Nat) (hd : d.length = s.length) :
    World.store ⟨base ++ [some s, some n], tr, fr⟩ ⟨base.length, 0⟩ d
      = some ⟨base ++ [some d, some n], tr, fr⟩ := by
  simp only [World.store]
  rw [getElem?_frame0]
  dsimp only
  rw [set_frame0, if_pos (by omega)]
  simp [hd]

theorem store_frame1 (base : List (Option (List Nat))) (s n d : List Nat) (tr : List Event)
    (fr : Nat → Nat → Nat) (hd : d.length = n.length) :
    World.store ⟨base ++ [some s, some n], tr, fr⟩ ⟨base.length + 1, 0⟩ d
      = some ⟨base ++ [some s, some d], tr, fr⟩ := by
  simp only [World.store]
  rw [getElem?_frame1]
  dsimp only
  rw [set_frame1, if_pos (by omega)]
  simp [hd]

theorem store_frame_lt (base l : List (Option (List Nat))) (tr : List Event)
    (fr : Nat → Nat → Nat) (p : Ptr) (d ob : List Nat)
    (hb : base[p.block]? = some (some ob)) (hlen : p.off + d.length ≤ ob.length) :
    World.store ⟨base ++ l, tr, fr⟩ p d
      = some ⟨base.set p.block (some (ob.take p.off ++ d ++ ob.drop (p.off + d.length))) ++ l,
          tr, fr⟩ := by
  simp only [World.store]
  rw [getElem?_frame_lt base l p.block _ hb]
  dsimp only
  rw [set_frame_lt base l p.block _ _ hb, if_pos hlen]

theorem hashStep_in (alg : SphAlg) (p : Prim) (base : List (Option (List Nat)))
    (s n h : List Nat) (tr tr0 : List Event) (fr fr0 : Nat → Nat → Nat) (input : Ptr) (len : Nat)
    (hl : World.load ⟨base, tr0, fr0⟩ input len = some h)
    (hd : (alg.digest h).length = s.length) :
    hashStep alg p ⟨base ++ [some s, some n], tr, fr⟩ input len ⟨base.length, 0⟩
      = some ⟨base ++ [some (alg.digest h), some n],
          tr ++ [Event.hash p len h (alg.digest h)], fr⟩ := by
  unfold hashStep
  rw [load_frame_lt base _ tr0 tr fr0 fr input len h hl]
  dsimp only
  rw [store_frame0 base s n _ tr fr hd]
  rfl

theorem hashStep_01 (alg : SphAlg) (p : Prim) (base : List (Option (List Nat)))
    (s n : List Nat) (tr : List Event) (fr : Nat → Nat → Nat)
    (hs : s.length = 64) (hn : n.length = 64) (hd : (alg.digest s).length = 64) :
    hashStep alg p ⟨base ++ [some s, some n], tr, fr⟩ ⟨base.length, 0⟩ 64 ⟨base.length + 1, 0⟩
      = some ⟨base ++ [some s, some (alg.digest s)],
          tr ++ [Event.hash p 64 s (alg.digest s)], fr⟩ := by
  unfold hashStep
  rw [load_frame0 base s n tr fr 64 (by omega)]
  have hts : s.take 64 = s := List.take_of_length_le (by omega)
  rw [hts]
  dsimp only
  rw [store_frame1 base s n _ tr fr (by omega)]
  rfl

theorem hashStep_10 (alg : SphAlg) (p : Prim) (base : List (Option (List Nat)))
    (s n : List Nat) (tr : List Event) (fr : Nat → Nat → Nat)
    (hs : s.length = 64) (hn : n.length = 64) (hd : (alg.digest n).length = 64) :
    hashStep alg p ⟨base ++ [some s, some n], tr, fr⟩ ⟨base.length + 1, 0⟩ 64 ⟨base.length, 0⟩
      = some ⟨base ++ [some (alg.digest n), some n],
          tr ++ [Event.hash p 64 n (alg.digest n)], fr⟩ := by
  unfold hashStep
  rw [load_frame1 base s n tr fr 64 (by omega)]
  have hts : n.take 64 = n := List.take_of_length_le (by omega)
  rw [hts]
  dsimp only
  rw [store_frame0 base s n _ tr fr (by omega)]
  rfl

theorem loadWord_frame0 (bo : ByteOrder) (base : List (Option (List Nat))) (s n : List Nat)
    (tr : List Event) (fr : Nat → Nat → Nat) (hs : 4 ≤ s.length) :
    World.loadWord ⟨base ++ [some s, some n], tr, fr⟩ bo ⟨base.length, 0⟩ 0 = wordAt bo s 0 := by
  unfold World.loadWord
  have h := load_frame0 base s n tr fr 4 hs
  simp only [Nat.mul_zero, Nat.add_zero] at h ⊢
  rw [h]
  exact wordAt_take bo s

theorem loadWord_frame1 (bo : ByteOrder) (base : List (Option (List Nat))) (s n : List Nat)
    (tr : List Event) (fr : Nat → Nat → Nat) (hn : 4 ≤ n.length) :
    World.loadWord ⟨base ++ [some s, some n], tr, fr⟩ bo ⟨base.length + 1, 0⟩ 0
      = wordAt bo n 0 := by
  unfold World.loadWord
  have h := load_frame1 base s n tr fr 4 hn
  simp only [Nat.mul_zero, Nat.add_zero] at h ⊢
  rw [h]
  exact wordAt_take bo n

theorem quark_should_branch_congr (f g : Nat → Option Nat) (h : f 0 = g 0) :
    quark_should_branch f = quark_should_branch g := by
  unfold quark_should_branch
  rw [h]

theorem evalBranch_frame0 (bo : ByteOrder) (base : List (Option (List Nat))) (s n : List Nat)
    (tr : List Event) (fr : Nat → Nat → Nat) (hs : s.length = 64) :
    evalBranch bo ⟨base ++ [some s, some n], tr, fr⟩ ⟨base.length, 0⟩
      = some (⟨base ++ [some s, some n], tr ++ [Event.branch (branchOf bo s)], fr⟩,
          branchOf bo s) := by
  unfold evalBranch
  rw [quark_should_branch_congr _ (wordAt bo s)
    (loadWord_frame0 bo base s n tr fr (by omega)),
    quark_should_branch_wordAt bo s (by omega)]
  rfl

theorem evalBranch_frame1 (bo : ByteOrder) (base : List (Option (List Nat))) (s n : List Nat)
    (tr : List Event) (fr : Nat → Nat → Nat) (hn : n.length = 64) :
    evalBranch bo ⟨base ++ [some s, some n], tr, fr⟩ ⟨base.length + 1, 0⟩
      = some (⟨base ++ [some s, some n], tr ++ [Event.branch (branchOf bo n)], fr⟩,
          branchOf bo n) := by
  unfold evalBranch
  rw [quark_should_branch_congr _ (wordAt bo n)
    (loadWord_frame1 bo base s n tr fr (by omega)),
    quark_should_branch_wordAt bo n (by omega)]
  rfl

theorem hash_bmw512_eq (sph : Sph) (w : World) (i : Ptr) (l : Nat) (o : Ptr) :
    hash_bmw512 sph w i l o = hashStep sph.bmw512 Prim.bmw w i l o := by
  unfold hash_bmw512 hashStep SphAlg.digest
  cases h1 : w.load i l with
  | none => rfl
  | some d =>
    cases h2 : w.store o (sph.bmw512.close (sph.bmw512.update sph.bmw512.init d)) with
    | none => simp [h2]
    | some w1 => simp [h2]

theorem hash_groestl512_eq (sph : Sph) (w : World) (i : Ptr) (l : Nat) (o : Ptr) :
    hash_groestl512 sph w i l o = hashStep sph.groestl512 Prim.groestl w i l o := by
  unfold hash_groestl512 hashStep SphAlg.digest
  cases h1 : w.load i l with
  | none => rfl
  | some d =>
    cases h2 : w.store o (sph.groestl512.close (sph.groestl512.update sph.groestl512.init d)) with
    | none => simp [h2]
    | some w1 => simp [h2]

theorem hash_jh512_eq (sph : Sph) (w : World) (i : Ptr) (l : Nat) (o : Ptr) :
    hash_jh512 sph w i l o = hashStep sph.jh512 Prim.jh w i l o := by
  unfold hash_jh512 hashStep SphAlg.digest
  cases h1 : w.load i l with
  | none => rfl
  | some d =>
    cases h2 : w.store o (sph.jh512.close (sph.jh512.update sph.jh512.init d)) with
    | none => simp [h2]
    | some w1 => simp [h2]

theorem hash_keccak512_eq (sph : Sph) (w : World) (i : Ptr) (l : Nat) (o : Ptr) :
    hash_keccak512 sph w i l o = hashStep sph.keccak512 Prim.keccak w i l o := by
  unfold hash_keccak512 hashStep SphAlg.digest
  cases h1 : w.load i l with
  | none => rfl
  | some d =>
    cases h2 : w.store o (sph.keccak512.close (sph.keccak512.update sph.keccak512.init d)) with
    | none => simp [h2]
    | some w1 => simp [h2]

theorem hash_skein512_eq (sph : Sph) (w : World) (i : Ptr) (l : Nat) (o : Ptr) :
    hash_skein512 sph w i l o = hashStep sph.skein512 Prim.skein w i l o := by
  unfold hash_skein512 hashStep SphAlg.digest
  cases h1 : w.load i l with
  | none => rfl
  | some d =>
    cases h2 : w.store o (sph.skein512.close (sph.skein512.update sph.skein512.init d)) with
    | none => simp [h2]
    | some w1 => simp [h2]

/-- A conditional round writing `state` from `next_state`. -/
theorem condStep_10 (a b : SphAlg) (pa pb : Prim) (c : Bool) (base : List (Option (List Nat)))
    (s n : List Nat) (tr : List Event) (fr : Nat → Nat → Nat)
    (hs : s.length = 64) (hn : n.length = 64)
    (ha : (a.digest n).length = 64) (hb : (b.digest n).length = 64) :
    (if c = true then
        hashStep a pa ⟨base ++ [some s, some n], tr, fr⟩ ⟨base.length + 1, 0⟩ 64 ⟨base.length, 0⟩
      else
        hashStep b pb ⟨base ++ [some s, some n], tr, fr⟩ ⟨base.length + 1, 0⟩ 64 ⟨base.length, 0⟩)
      = some ⟨base ++ [some (if c = true then a.digest n else b.digest n), some n],
          tr ++ [Event.hash (if c = true then pa else pb) 64 n
            (if c = true then a.digest n else b.digest n)], fr⟩ := by
  cases c
  · simpa using hashStep_10 b pb base s n tr fr hs hn hb
  · simpa using hashStep_10 a pa base s n tr fr hs hn ha

/-- A conditional round writing `next_state` from `state`. -/
theorem condStep_01 (a b : SphAlg) (pa pb : Prim) (c : Bool) (base : List (Option (List Nat)))
    (s n : List Nat) (tr : List Event) (fr : Nat → Nat → Nat)
    (hs : s.length = 64) (hn : n.length = 64)
    (ha : (a.digest s).length = 64) (hb : (b.digest s).length = 64) :
    (if c = true then
        hashStep a pa ⟨base ++ [some s, some n], tr, fr⟩ ⟨base.length, 0⟩ 64 ⟨base.length + 1, 0⟩
      else
        hashStep b pb ⟨base ++ [some s, some n], tr, fr⟩ ⟨base.length, 0⟩ 64 ⟨base.length + 1, 0⟩)
      = some ⟨base ++ [some s, some (if c = true then a.digest s else b.digest s)],
          tr ++ [Event.hash (if c = true then pa else pb) 64 s
            (if c = true then a.digest s else b.digest s)], fr⟩ := by
  cases c
  · simpa using hashStep_01 b pb base s n tr fr hs hn hb
  · simpa using hashStep_01 a pa base s n tr fr hs hn ha

theorem memcpy_out (base : List (Option (List Nat))) (s n ob : List Nat) (tr : List Event)
    (fr : Nat → Nat → Nat) (output : Ptr) (k : Nat) (hk : k ≤ s.length)
    (hb : base[output.block]? = some (some ob)) (hlen : output.off + k ≤ ob.length) :
    memcpy ⟨base ++ [some s, some n], tr, fr⟩ output ⟨base.length, 0⟩ k
      = some ⟨base.set output.block
            (some (ob.take output.off ++ s.take k ++ ob.drop (output.off + k))) ++
            [some s, some n], tr, fr⟩ := by
  unfold memcpy
  rw [load_frame0 base s n tr fr k hk]
  have hl : (s.take k).length = k := by simp [hk]
  have := store_frame_lt base [some s, some n] tr fr output (s.take k) ob hb (by omega)
  rw [hl] at this
  simpa using this

theorem free_frame (base : List (Option (List Nat))) (s n : Option (List Nat)) (tr : List Event)
    (fr : Nat → Nat → Nat) (k : Nat) (hk : k = base.length) :
    ((World.mk (base ++ [s, n]) tr fr).free ⟨k + 1, 0⟩).free ⟨k, 0⟩
      = ⟨base ++ [none, none], tr, fr⟩ := by
  subst hk
  simp only [World.free]
  rw [set_frame1, set_frame0]

theorem round_lengths (sph : Sph) (bo : ByteOrder) (h : List Nat) (h512 : sph.Is512) :
    (round1 sph h).length = 64 ∧ (round2 sph h).length = 64 ∧ (round3 sph bo h).length = 64 ∧
    (round4 sph bo h).length = 64 ∧ (round5 sph bo h).length = 64 ∧
    (round6 sph bo h).length = 64 ∧ (round7 sph bo h).length = 64 ∧
    (round8 sph bo h).length = 64 ∧ (round9 sph bo h).length = 64 := by
  refine ⟨(h512 _).1, (h512 _).2.1, ?_, (h512 _).2.2.1, (h512 _).2.2.2.1, ?_,
    (h512 _).2.2.2.2.1, (h512 _).2.2.2.2.2, ?_⟩
  · unfold round3; split
    · exact (h512 _).2.2.1
    · exact (h512 _).2.2.2.2.2
  · unfold round6; split
    · exact (h512 _).1
    · exact (h512 _).2.1
  · unfold round9; split
    · exact (h512 _).2.2.2.2.1
    · exact (h512 _).2.2.2.1

theorem quark_hash_exec (sph : Sph) (bo : ByteOrder) (w : World) (input output : Ptr)
    (h ob : List Nat) (h512 : sph.Is512) (hin : w.load input 80 = some h)
    (hob : w.mem[output.block]? = some (some ob)) (hlen : output.off + 32 ≤ ob.length) :
    quark_hash sph bo w input output
      = some ⟨w.mem.set output.block
            (some (ob.take output.off ++ (round9 sph bo h).take 32 ++
              ob.drop (output.off + 32))) ++ [none, none],
          w.trace ++ chainTrace sph bo h, w.fresh⟩ := by
  obtain ⟨l1, l2, l3, l4, l5, l6, l7, l8, l9⟩ := round_lengths sph bo h h512
  unfold quark_hash
  simp only [World.alloca, HASH_BUFFER_UINT32_LEN, QUARK_BLOCK_HEADER_SIZE,
    QUARK_INTERMEDIATE_SIZE, QUARK_OUTPUT_SIZE, List.append_assoc, List.singleton_append,
    List.length_append, List.length_singleton, hash_blake512_eq, hash_bmw512_eq,
    hash_groestl512_eq, hash_jh512_eq, hash_keccak512_eq, hash_skein512_eq]
  generalize hs0 : List.map (fun i => w.fresh w.mem.length i % 256) (List.range (4 * 16)) = s0
  generalize hn0 :
    List.map (fun i => w.fresh (w.mem.length + 1) i % 256) (List.range (4 * 16)) = n0
  have ls0 : s0.length = 64 := by rw [← hs0]; simp
  have ln0 : n0.length = 64 := by rw [← hn0]; simp
  have h512b := h512
  unfold Sph.Is512 at h512b
  have e1 : sph.blake512.digest h = round1 sph h := rfl
  have e2 : sph.bmw512.digest (round1 sph h) = round2 sph h := rfl
  have e3 : (if branchOf bo (round2 sph h) = true then sph.groestl512.digest (round2 sph h)
      else sph.skein512.digest (round2 sph h)) = round3 sph bo h := rfl
  have e4 : sph.groestl512.digest (round3 sph bo h) = round4 sph bo h := rfl
  have e5 : sph.jh512.digest (round4 sph bo h) = round5 sph bo h := rfl
  have e6 : (if branchOf bo (round5 sph bo h) = true then sph.blake512.digest (round5 sph bo h)
      else sph.bmw512.digest (round5 sph bo h)) = round6 sph bo h := rfl
  have e7 : sph.keccak512.digest (round6 sph bo h) = round7 sph bo h := rfl
  have e8 : sph.skein512.digest (round7 sph bo h) = round8 sph bo h := rfl
  have e9 : (if branchOf bo (round8 sph bo h) = true then sph.keccak512.digest (round8 sph bo h)
      else sph.jh512.digest (round8 sph bo h)) = round9 sph bo h := rfl
  rw [hashStep_in sph.blake512 Prim.blake w.mem s0 n0 h w.trace w.trace w.fresh w.fresh input 80
    hin (by rw [ls0]; exact (h512b h).1)]
  simp only [Option.bind_eq_bind, Option.some_bind]
  rw [e1, hashStep_01 sph.bmw512 Prim.bmw w.mem _ n0 _ w.fresh l1 ln0 (h512b _).2.1]
  simp only [Option.bind_eq_bind, Option.some_bind]
  rw [e2, evalBranch_frame1 bo w.mem _ _ _ w.fresh l2]
  simp only [Option.bind_eq_bind, Option.some_bind]
  rw [condStep_10 sph.groestl512 sph.skein512 _ _ _ w.mem _ _ _ w.fresh l1 l2
    (h512b _).2.2.1 (h512b _).2.2.2.2.2]
  simp only [Option.bind_eq_bind, Option.some_bind]
  rw [e3, hashStep_01 sph.groestl512 Prim.groestl w.mem _ _ _ w.fresh l3 l2 (h512b _).2.2.1]
  simp only [Option.bind_eq_bind, Option.some_bind]
  rw [e4, hashStep_10 sph.jh512 Prim.jh w.mem _ _ _ w.fresh l3 l4 (h512b _).2.2.2.1]
  simp only [Option.bind_eq_bind, Option.some_bind]
  rw [e5, evalBranch_frame0 bo w.mem _ _ _ w.fresh l5]
  simp only [Option.bind_eq_bind, Option.some_bind]
  rw [condStep_01 sph.blake512 sph.bmw512 _ _ _ w.mem _ _ _ w.fresh l5 l4
    (h512b _).1 (h512b _).2.1]
  simp only [Option.bind_eq_bind, Option.some_bind]
  rw [e6, hashStep_10 sph.keccak512 Prim.keccak w.mem _ _ _ w.fresh l5 l6 (h512b _).2.2.2.2.1]
  simp only [Option.bind_eq_bind, Option.some_bind]
  rw [e7, hashStep_01 sph.skein512 Prim.skein w.mem _ _ _ w.fresh l7 l6 (h512b _).2.2.2.2.2]
  simp only [Option.bind_eq_bind, Option.some_bind]
  rw [e8, evalBranch_frame1 bo w.mem _ _ _ w.fresh l8]
  simp only [Option.bind_eq_bind, Option.some_bind]
  rw [condStep_10 sph.keccak512 sph.jh512 _ _ _ w.mem _ _ _ w.fresh l7 l8
    (h512b _).2.2.2.2.1 (h512b _).2.2.2.1]
  simp only [Option.bind_eq_bind, Option.some_bind]
  rw [e9, memcpy_out w.mem _ _ ob _ w.fresh output 32 (by omega) hob hlen]
  simp only [Option.bind_eq_bind, Option.some_bind]
  rw [free_frame _ _ _ _ w.fresh w.mem.length (by simp)]
  simp [chainTrace]

theorem and_mask_ne_zero (w : Nat) : ((w &&& QUARK_BRANCH_MASK) != 0) = w.testBit 3 := by
  have hm : QUARK_BRANCH_MASK = 2 ^ 3 := by decide
  rw [hm]
  cases hb : w.testBit 3 with
  | true =>
    have h1 : (w &&& 2 ^ 3).testBit 3 = true := by
      rw [Nat.testBit_and, hb, Nat.testBit_two_pow_self]; rfl
    have h2 : w &&& 2 ^ 3 ≠ 0 := by
      intro h0
      rw [h0] at h1
      simp at h1
    simpa using h2
  | false =>
    have h2 : w &&& 2 ^ 3 = 0 := by
      apply Nat.eq_of_testBit_eq
      intro i
      rw [Nat.testBit_and, Nat.zero_testBit]
      by_cases hi : 3 = i
      · subst hi; rw [hb]; rfl
      · rw [Nat.testBit_two_pow_of_ne hi]; simp
    rw [h2]; rfl

theorem testBit3_add_mul_256 (a x : Nat) : (a + 2 ^ 8 * x).testBit 3 = a.testBit 3 := by
  have h1 : ((a + 2 ^ 8 * x) % 2 ^ 8).testBit 3 = (a % 2 ^ 8).testBit 3 := by
    rw [Nat.add_mul_mod_self_left]
  rw [Nat.testBit_mod_two_pow, Nat.testBit_mod_two_pow] at h1
  have h38 : decide (3 < 8) = true := by decide
  rw [h38, Bool.true_and, Bool.true_and] at h1
  exact h1

theorem decode32_little_bit3 (b0 b1 b2 b3 : Nat) :
    (decode32 ByteOrder.little b0 b1 b2 b3).testBit 3 = b0.testBit 3 := by
  unfold decode32
  have e : b0 + 2 ^ 8 * b1 + 2 ^ 16 * b2 + 2 ^ 24 * b3
      = b0 + 2 ^ 8 * (b1 + 2 ^ 8 * b2 + 2 ^ 16 * b3) := by ring
  simp only [e, Nat.testBit_mod_two_pow]
  simpa using testBit3_add_mul_256 b0 _

theorem decode32_big_bit3 (b0 b1 b2 b3 : Nat) :
    (decode32 ByteOrder.big b0 b1 b2 b3).testBit 3 = b3.testBit 3 := by
  unfold decode32
  have e : 2 ^ 24 * b0 + 2 ^ 16 * b1 + 2 ^ 8 * b2 + b3
      = b3 + 2 ^ 8 * (b2 + 2 ^ 8 * b1 + 2 ^ 16 * b0) := by ring
  simp only [e, Nat.testBit_mod_two_pow]
  simpa using testBit3_add_mul_256 b3 _

theorem branchOf_cons (bo : ByteOrder) (b0 b1 b2 b3 : Nat) (rest : List Nat) :
    branchOf bo (b0 :: b1 :: b2 :: b3 :: rest)
      = ((decode32 bo b0 b1 b2 b3 &&& QUARK_BRANCH_MASK) != 0) := by
  unfold branchOf quark_should_branch wordAt
  simp only [Nat.mul_zero, List.drop_zero, List.take_succ_cons, List.take_zero]
  cases h : ((decode32 bo b0 b1 b2 b3 &&& QUARK_BRANCH_MASK) != 0) <;> rfl

theorem splice_length (ob d : List Nat) (off : Nat) (h : off + d.length ≤ ob.length) :
    (ob.take off ++ d ++ ob.drop (off + d.length)).length = ob.length := by
  simp only [List.length_append, List.length_take, List.length_drop]
  omega

theorem splice_outside (ob d : List Nat) (off i : Nat) (h : off + d.length ≤ ob.length)
    (hi : i < off ∨ off + d.length ≤ i) :
    (ob.take off ++ d ++ ob.drop (off + d.length))[i]? = ob[i]? := by
  have hto : (ob.take off).length = off := by simp; omega
  rcases hi with hi | hi
  · rw [List.append_assoc, List.getElem?_append_left (by omega), List.getElem?_take_of_lt hi]
  · rw [List.getElem?_append_right (by simp [hto]; omega), List.getElem?_drop]
    congr 1
    simp only [List.length_append, hto]
    omega

theorem splice_inside (ob d : List Nat) (off : Nat) (h : off + d.length ≤ ob.length) :
    ((ob.take off ++ d ++ ob.drop (off + d.length)).drop off).take d.length = d := by
  have hto : (ob.take off).length = off := by simp; omega
  rw [List.append_assoc, List.drop_append_of_le_length (by omega), List.drop_of_length_le (by omega),
    List.nil_append, List.take_left']
  rfl

theorem load_after_store (base l : List (Option (List Nat))) (tr : List Event)
    (fr : Nat → Nat → Nat) (p : Ptr) (d ob : List Nat)
    (hb : base[p.block]? = some (some ob)) (hlen : p.off + d.length ≤ ob.length) :
    World.load ⟨base.set p.block
        (some (ob.take p.off ++ d ++ ob.drop (p.off + d.length))) ++ l, tr, fr⟩ p d.length
      = some d := by
  have hi : p.block < base.length := by
    by_contra hc
    rw [List.getElem?_eq_none (by omega)] at hb
    cases hb
  unfold World.load
  simp only
  rw [List.getElem?_append_left (by simpa using hi), List.getElem?_set_self (by simpa using hi)]
  simp only
  rw [if_pos (by rw [splice_length ob d p.off hlen]; exact hlen), splice_inside ob d p.off hlen]

theorem loadWord_of_load (bo : ByteOrder) (w : World) (p : Ptr) (b : List Nat) (k : Nat)
    (hk : 4 ≤ k) (hl : w.load p k = some b) : w.loadWord bo p 0 = wordAt bo b 0 := by
  unfold World.loadWord
  unfold World.load at hl ⊢
  simp only [Nat.mul_zero, Nat.add_zero] at hl ⊢
  cases hm : w.mem[p.block]? with
  | none => rw [hm] at hl; cases hl
  | some o =>
    cases o with
    | none => rw [hm] at hl; cases hl
    | some blk =>
      rw [hm] at hl
      simp only at hl ⊢
      by_cases hle : p.off + k ≤ blk.length
      · rw [if_pos hle] at hl
        rw [if_pos (by omega)]
        simp only
        cases hl
        rw [wordAt_take]
        unfold wordAt
        simp only [Nat.mul_zero, List.drop_zero, List.take_take]
        rw [Nat.min_eq_left hk]
      · rw [if_neg hle] at hl; cases hl

theorem evalBranch_of_load (bo : ByteOrder) (w : World) (p : Ptr) (b : List Nat)
    (hl : w.load p 64 = some b) :
    evalBranch bo w p = some (w.log (Event.branch (branchOf bo b)), branchOf bo b) := by
  have hb : b.length = 64 := by
    unfold World.load at hl
    split at hl
    · split at hl
      · cases hl; simp only [List.length_take, List.length_drop]; omega
      · cases hl
    · cases hl
  unfold evalBranch
  rw [quark_should_branch_congr _ (wordAt bo b) (loadWord_of_load bo w p b 64 (by omega) hl),
    quark_should_branch_wordAt bo b (by omega)]
  rfl

theorem load_length (w : World) (p : Ptr) (k : Nat) (b : List Nat) (hl : w.load p k = some b) :
    b.length = k := by
  unfold World.load at hl
  split at hl
  · split at hl
    · cases hl; simp only [List.length_take, List.length_drop]; omega
    · cases hl
  · cases hl

/-- What a well-defined call of `quark_hash` leaves behind. -/
theorem quark_hash_spec (sph : Sph) (bo : ByteOrder) (w : World) (input output : Ptr)
    (h ob : List Nat) (h512 : sph.Is512) (hin : w.load input 80 = some h)
    (hob : w.mem[output.block]? = some (some ob)) (hlen : output.off + 32 ≤ ob.length) :
    ∃ w', quark_hash sph bo w input output = some w' ∧
      w'.trace = w.trace ++ chainTrace sph bo h ∧
      w'.mem = w.mem.set output.block
            (some (ob.take output.off ++ (round9 sph bo h).take 32 ++
              ob.drop (output.off + 32))) ++ [none, none] ∧
      w'.load output 32 = some ((round9 sph bo h).take 32) := by
  have l9 := (round_lengths sph bo h h512).2.2.2.2.2.2.2.2
  have ht : ((round9 sph bo h).take 32).length = 32 := by simp [l9]
  refine ⟨_, quark_hash_exec sph bo w input output h ob h512 hin hob hlen, rfl, rfl, ?_⟩
  have := load_after_store w.mem [none, none] (w.trace ++ chainTrace sph bo h) w.fresh output
    ((round9 sph bo h).take 32) ob hob (by omega)
  rw [ht] at this
  exact this

/-- The world in which the binding calls `quark_hash`, and the two pointers it
passes, for a bytes argument `b`. -/
theorem binding_call_world (rt : PyRuntime) (w : World) (b : List Nat)
    (hm : rt.malloc_ok = true) :
    ∃ junk : List Nat, junk.length = 32 ∧
      PyMem_Malloc rt w QUARK_DIGEST_SIZE
        = (⟨w.mem ++ [some junk], w.trace, w.fresh⟩, some ⟨w.mem.length, 0⟩) ∧
      PyBytes_AS_STRING ⟨w.mem ++ [some junk], w.trace, w.fresh⟩ b
        = (⟨w.mem ++ [some junk, some (b ++ [0])], w.trace, w.fresh⟩,
            ⟨w.mem.length + 1, 0⟩) := by
  refine ⟨(List.range 32).map (fun i => w.fresh w.mem.length i % 256), by simp, ?_, ?_⟩
  · unfold PyMem_Malloc
    rw [hm]
    rfl
  · unfold PyBytes_AS_STRING World.allocInit
    simp

theorem quark_getpowhash_bytes (sph : Sph) (bo : ByteOrder) (rt : PyRuntime) (w : World)
    (b : List Nat) (h512 : sph.Is512) (hb : 79 ≤ b.length) (hm : rt.malloc_ok = true) :
    ∃ junk w2, junk.length = 32 ∧
      PyMem_Malloc rt w QUARK_DIGEST_SIZE
        = (⟨w.mem ++ [some junk], w.trace, w.fresh⟩, some ⟨w.mem.length, 0⟩) ∧
      PyBytes_AS_STRING ⟨w.mem ++ [some junk], w.trace, w.fresh⟩ b
        = (⟨w.mem ++ [some junk, some (b ++ [0])], w.trace, w.fresh⟩,
            ⟨w.mem.length + 1, 0⟩) ∧
      quark_hash sph bo ⟨w.mem ++ [some junk, some (b ++ [0])], w.trace, w.fresh⟩
        ⟨w.mem.length + 1, 0⟩ ⟨w.mem.length, 0⟩ = some w2 ∧
      w2.load ⟨w.mem.length, 0⟩ 32 = some ((round9 sph bo ((b ++ [0]).take 80)).take 32) ∧
      w2.trace = w.trace ++ chainTrace sph bo ((b ++ [0]).take 80) ∧
      quark_getpowhash sph bo rt w [PyObject.bytes b]
        = some (PyMem_Free w2 ⟨w.mem.length, 0⟩,
            if rt.object_ok = true then
              PyReturn.object (PyObject.bytes ((round9 sph bo ((b ++ [0]).take 80)).take 32))
            else PyReturn.null PyExc.MemoryError) := by
  obtain ⟨junk, hj, hmal, hbuf⟩ := binding_call_world rt w b hm
  have hin := load_frame1 w.mem junk (b ++ [0]) w.trace w.fresh 80 (by simp; omega)
  have hob : (w.mem ++ [some junk, some (b ++ [0])])[w.mem.length]? = some (some junk) :=
    getElem?_frame0 w.mem _ _
  obtain ⟨w2, hq, htr, hmem, hld⟩ := quark_hash_spec sph bo
    ⟨w.mem ++ [some junk, some (b ++ [0])], w.trace, w.fresh⟩ ⟨w.mem.length + 1, 0⟩
    ⟨w.mem.length, 0⟩ ((b ++ [0]).take 80) junk h512 hin hob (by simp [hj])
  refine ⟨junk, w2, hj, hmal, hbuf, hq, hld, htr, ?_⟩
  unfold quark_getpowhash
  simp only [PyArg_ParseTuple_S, hmal, hbuf]
  rw [hq]
  simp only [Option.bind_eq_bind, Option.some_bind]
  unfold Py_BuildValue_y
  cases ho : rt.object_ok
  · simp
  · simp only [if_true, QUARK_DIGEST_SIZE, hld]
    rfl

theorem sampleSph_is512 : sampleSph.Is512 := by
  intro data
  simp [sampleSph, sampleAlg, SphAlg.digest]

theorem specChain_eq_round9 (sph : Sph) (bo : ByteOrder) (h : List Nat) :
    specChain sph.blake512.digest sph.bmw512.digest sph.groestl512.digest sph.jh512.digest
        sph.keccak512.digest sph.skein512.digest (branchOf bo) h
      = (round9 sph bo h).take 32 := rfl

theorem hashCalls_chainTrace (sph : Sph) (bo : ByteOrder) (h : List Nat) :
    hashCalls (chainTrace sph bo h) =
      [ ⟨Prim.blake, 80, h, round1 sph h⟩,
        ⟨Prim.bmw, 64, round1 sph h, round2 sph h⟩,
        ⟨if branchOf bo (round2 sph h) then Prim.groestl else Prim.skein, 64,
          round2 sph h, round3 sph bo h⟩,
        ⟨Prim.groestl, 64, round3 sph bo h, round4 sph bo h⟩,
        ⟨Prim.jh, 64, round4 sph bo h, round5 sph bo h⟩,
        ⟨if branchOf bo (round5 sph bo h) then Prim.blake else Prim.bmw, 64,
          round5 sph bo h, round6 sph bo h⟩,
        ⟨Prim.keccak, 64, round6 sph bo h, round7 sph bo h⟩,
        ⟨Prim.skein, 64, round7 sph bo h, round8 sph bo h⟩,
        ⟨if branchOf bo (round8 sph bo h) then Prim.keccak else Prim.jh, 64,
          round8 sph bo h, round9 sph bo h⟩ ] := rfl

theorem branchEvals_chainTrace (sph : Sph) (bo : ByteOrder) (h : List Nat) :
    branchEvals (chainTrace sph bo h) =
      [branchOf bo (round2 sph h), branchOf bo (round5 sph bo h),
        branchOf bo (round8 sph bo h)] := rfl

theorem load_congr (w w2 : World) (p : Ptr) (n : Nat)
    (hm : w2.mem[p.block]? = w.mem[p.block]?) : w2.load p n = w.load p n := by
  unfold World.load
  rw [hm]

theorem take_drop_congr (l l2 : List Nat) (i n : Nat)
    (h : ∀ j, i ≤ j → j < i + n → l2[j]? = l[j]?) :
    (l2.drop i).take n = (l.drop i).take n := by
  apply List.ext_getElem?
  intro j
  by_cases hj : j < n
  · rw [List.getElem?_take_of_lt hj, List.getElem?_take_of_lt hj, List.getElem?_drop,
      List.getElem?_drop]
    exact h (i + j) (by omega) (by omega)
  · rw [List.getElem?_take_eq_none (by omega), List.getElem?_take_eq_none (by omega)]


theorem load_frame_eq (base l : List (Option (List Nat))) (tr tr0 : List Event)
    (fr fr0 : Nat → Nat → Nat) (p : Ptr) (k : Nat) (hp : p.block < base.length) :
    World.load ⟨base ++ l, tr, fr⟩ p k = World.load ⟨base, tr0, fr0⟩ p k := by
  unfold World.load
  simp only
  rw [List.getElem?_append_left hp]

/-- A call whose input pointer does not have 80 readable bytes in an existing
block has no defined result. -/
theorem quark_hash_short_input (sph : Sph) (bo : ByteOrder) (w : World) (input output : Ptr)
    (hp : input.block < w.mem.length) (hin : w.load input 80 = none) :
    quark_hash sph bo w input output = none := by
  unfold quark_hash
  simp only [World.alloca, HASH_BUFFER_UINT32_LEN, QUARK_BLOCK_HEADER_SIZE,
    List.append_assoc, List.singleton_append, hash_blake512_eq]
  have hl := load_frame_eq w.mem
    [some (List.map (fun i => w.fresh w.mem.length i % 256) (List.range (4 * 16))),
      some (List.map (fun i => w.fresh (w.mem.length + 1) i % 256) (List.range (4 * 16)))]
    w.trace w.trace w.fresh w.fresh input 80 hp
  have hw : World.load ⟨w.mem, w.trace, w.fresh⟩ input 80 = none := hin
  rw [hw] at hl
  unfold hashStep
  simp only [List.length_append, List.length_singleton]
  rw [hl]
  rfl

/-- For a bytes argument of fewer than 79 bytes the binding's call of
`quark_hash` reads past the object's buffer: no defined result. -/
theorem quark_getpowhash_short_bytes (sph : Sph) (bo : ByteOrder) (rt : PyRuntime)
    (w : World) (b : List Nat) (hb : b.length < 79) (hm : rt.malloc_ok = true) :
    quark_getpowhash sph bo rt w [PyObject.bytes b] = none := by
  obtain ⟨junk, hj, hmal, hbuf⟩ := binding_call_world rt w b hm
  have hin : World.load ⟨w.mem ++ [some junk, some (b ++ [0])], w.trace, w.fresh⟩
      ⟨w.mem.length + 1, 0⟩ 80 = none := by
    unfold World.load
    simp only
    rw [getElem?_frame1]
    simp only
    rw [if_neg (by simp; omega)]
  have hq := quark_hash_short_input sph bo
    ⟨w.mem ++ [some junk, some (b ++ [0])], w.trace, w.fresh⟩ ⟨w.mem.length + 1, 0⟩
    ⟨w.mem.length, 0⟩ (by simp) hin
  unfold quark_getpowhash
  simp only [PyArg_ParseTuple_S, hmal, hbuf]
  rw [hq]
  rfl

theorem load_prefix (w : World) (p : Ptr) (n k : Nat) (b : List Nat) (hk : k ≤ n)
    (hl : w.load p n = some b) : w.load p k = some (b.take k) := by
  unfold World.load at hl ⊢
  cases hm : w.mem[p.block]? with
  | none => rw [hm] at hl; cases hl
  | some o =>
    cases o with
    | none => rw [hm] at hl; cases hl
    | some blk =>
      rw [hm] at hl
      simp only at hl ⊢
      by_cases hle : p.off + n ≤ blk.length
      · rw [if_pos hle] at hl
        rw [if_pos (by omega)]
        cases hl
        rw [List.take_take, Nat.min_eq_left hk]
      · rw [if_neg hle] at hl; cases hl

theorem quark_getpowhash_malloc_null (sph : Sph) (bo : ByteOrder) (rt : PyRuntime) (w : World)
    (b : List Nat) (hm : rt.malloc_ok = false) :
    quark_getpowhash sph bo rt w [PyObject.bytes b]
      = some (w, PyReturn.null PyExc.MemoryError) := by
  unfold quark_getpowhash
  simp only [PyArg_ParseTuple_S]
  unfold PyMem_Malloc
  rw [hm]
  rfl

theorem malloc_null_iff (rt : PyRuntime) (w : World) (n : Nat) :
    (PyMem_Malloc rt w n).2 = none ↔ rt.malloc_ok = false := by
  unfold PyMem_Malloc
  cases rt.malloc_ok <;> simp

theorem take_eq_of_agree (b1 b2 : List Nat) (n : Nat)
    (hagree : ∀ i, i < n → b1[i]? = b2[i]?) : b1.take n = b2.take n := by
  apply List.ext_getElem?
  intro i
  by_cases hi : i < n
  · rw [List.getElem?_take_of_lt hi, List.getElem?_take_of_lt hi]
    exact hagree i hi
  · rw [List.getElem?_take_eq_none (by omega), List.getElem?_take_eq_none (by omega)]

theorem quark_getpowhash_defined (sph : Sph) (bo : ByteOrder) (rt : PyRuntime) (w : World)
    (b : List Nat) (h512 : sph.Is512) (hb : 79 ≤ b.length) :
    ∃ r, quark_getpowhash sph bo rt w [PyObject.bytes b] = some r := by
  cases hm : rt.malloc_ok
  · exact ⟨_, quark_getpowhash_malloc_null sph bo rt w b hm⟩
  · obtain ⟨_, _, _, _, _, _, _, _, hg⟩ := quark_getpowhash_bytes sph bo rt w b h512 hb hm
    exact ⟨_, hg⟩

/-! ## The binding on the flat address space -/

theorem zeroSph_is512 : zeroSph.Is512 := by
  intro data
  simp [zeroSph, zeroAlg, SphAlg.digest]

set_option maxRecDepth 100000 in
/-- With the stand-in primitives of `sampleSph` on a little-endian host each of
the eight combinations of branch decisions is taken by some 80-byte header: the
driver excludes none of the eight paths. -/
theorem sample_paths_all_taken (c3 c6 c9 : Bool) :
    ∃ h : List Nat, h.length = 80 ∧
      branchEvals (chainTrace sampleSph ByteOrder.little h) = [c3, c6, c9] := by
  cases c3 <;> cases c6 <;> cases c9
  · exact ⟨sampleHeader 2, by rfl, by rfl⟩
  · exact ⟨sampleHeader 12, by rfl, by rfl⟩
  · exact ⟨sampleHeader 3, by rfl, by rfl⟩
  · exact ⟨sampleHeader 0, by rfl, by rfl⟩
  · exact ⟨sampleHeader 28, by rfl, by rfl⟩
  · exact ⟨sampleHeader 4, by rfl, by rfl⟩
  · exact ⟨sampleHeader 1, by rfl, by rfl⟩
  · exact ⟨sampleHeader 5, by rfl, by rfl⟩

/-- With primitives whose digest is constant every header takes the same path:
which paths are taken is a property of the primitives, not of the driver. -/
theorem zero_primitives_single_path (bo : ByteOrder) (h : List Nat) :
    branchEvals (chainTrace zeroSph bo h) = [false, false, false] := by
  cases bo <;> rfl

/-! ## The claims -/

/-- C1: for every 80-byte header `h` (the bytes at `input`), six arbitrary
primitives that write 64-byte digests, and `P` the branch predicate of the code,
a call of `quark_hash` returns and leaves at `output` exactly the nested
composition `R1 .. R9` of the specification, truncated to 32 bytes. -/
theorem quark_hash_computes_chain (sph : Sph) (bo : ByteOrder) (w : World)
    (input output : Ptr) (h ob : List Nat) (h512 : sph.Is512)
    (hin : w.load input QUARK_BLOCK_HEADER_SIZE = some h)
    (hob : w.mem[output.block]? = some (some ob))
    (hlen : output.off + QUARK_OUTPUT_SIZE ≤ ob.length) :
    h.length = 80 ∧
    ∃ w', quark_hash sph bo w input output = some w' ∧
      w'.load output QUARK_OUTPUT_SIZE = some
        (specChain sph.blake512.digest sph.bmw512.digest sph.groestl512.digest
          sph.jh512.digest sph.keccak512.digest sph.skein512.digest (branchOf bo) h) := by
  refine ⟨load_length w input _ h hin, ?_⟩
  obtain ⟨w', hq, _, _, hld⟩ := quark_hash_spec sph bo w input output h ob h512 hin hob hlen
  exact ⟨w', hq, by rw [specChain_eq_round9]; exact hld⟩

/-- Witness for C1 on the sample memory: header in block 0, output at block 1. -/
theorem quark_hash_computes_chain_witness :
    sampleSph.Is512 ∧
    sampleWorld.load ⟨0, 0⟩ QUARK_BLOCK_HEADER_SIZE = some (List.range 80) ∧
    (List.range 80).length = 80 ∧
    ∃ w', quark_hash sampleSph ByteOrder.little sampleWorld ⟨0, 0⟩ ⟨1, 0⟩ = some w' ∧
      w'.load ⟨1, 0⟩ QUARK_OUTPUT_SIZE = some
        (specChain sampleSph.blake512.digest sampleSph.bmw512.digest
          sampleSph.groestl512.digest sampleSph.jh512.digest sampleSph.keccak512.digest
          sampleSph.skein512.digest (branchOf ByteOrder.little) (List.range 80)) :=
  ⟨sampleSph_is512, by rfl,
    quark_hash_computes_chain sampleSph ByteOrder.little sampleWorld ⟨0, 0⟩ ⟨1, 0⟩
      (List.range 80) (List.replicate 40 9) sampleSph_is512 (by rfl) (by rfl) (by decide)⟩

/-- C2: on every `Hash512` value (sixteen words) `quark_should_branch` returns a
result (it is total), namely whether bit 3 (mask `0x08`) of word 0 is set; any
other sixteen words whose word 0 has the same bit 3 give the same result, so
words 1..15 and the other bits of word 0 do not matter. -/
theorem quark_should_branch_bit3 (hash : List Nat)
    (hlen : hash.length = HASH_BUFFER_UINT32_LEN) :
    QUARK_BRANCH_MASK = 0x08 ∧
    (∃ w0, hash[0]? = some w0 ∧
      quark_should_branch (fun i => hash[i]?) = some (w0.testBit 3) ∧
      (w0.testBit 3 = true ↔ w0 &&& 0x08 ≠ 0)) ∧
    ∀ hash2 : List Nat, hash2.length = HASH_BUFFER_UINT32_LEN →
      (∀ w0 v0, hash[0]? = some w0 → hash2[0]? = some v0 → v0.testBit 3 = w0.testBit 3) →
      quark_should_branch (fun i => hash2[i]?) = quark_should_branch (fun i => hash[i]?) := by
  have key : ∀ l : List Nat, l.length = HASH_BUFFER_UINT32_LEN →
      ∃ w0, l[0]? = some w0 ∧ quark_should_branch (fun i => l[i]?) = some (w0.testBit 3) := by
    intro l hl
    match l, hl with
    | w0 :: t, _ =>
      refine ⟨w0, List.getElem?_cons_zero, ?_⟩
      unfold quark_should_branch
      simp only [List.getElem?_cons_zero]
      rw [and_mask_ne_zero]
  refine ⟨by decide, ?_, ?_⟩
  · obtain ⟨w0, h0, hr⟩ := key hash hlen
    refine ⟨w0, h0, hr, ?_⟩
    have hm := and_mask_ne_zero w0
    have h8 : QUARK_BRANCH_MASK = 0x08 := by decide
    rw [h8] at hm
    rw [← hm]
    simp
  · intro hash2 hlen2 hbit
    obtain ⟨w0, h0, hr⟩ := key hash hlen
    obtain ⟨v0, g0, gr⟩ := key hash2 hlen2
    rw [hr, gr, hbit w0 v0 h0 g0]

/-- Witness for C2 on a sixteen-word value whose word 0 is `0x0000002A`. -/
theorem quark_should_branch_bit3_witness :
    (42 :: List.replicate 15 7).length = HASH_BUFFER_UINT32_LEN ∧
    (∃ w0, (42 :: List.replicate 15 7)[0]? = some w0 ∧
      quark_should_branch (fun i => (42 :: List.replicate 15 7)[i]?) = some (w0.testBit 3) ∧
      (w0.testBit 3 = true ↔ w0 &&& 0x08 ≠ 0)) :=
  ⟨by decide, (quark_should_branch_bit3 (42 :: List.replicate 15 7) (by decide)).2.1⟩

set_option maxRecDepth 100000 in
/-- C3, as stated, fails: an 81-byte and a 79-byte bytes argument are not
rejected; `getPoWHash` returns a 32-byte bytes object for each. -/
theorem getpowhash_wrong_size_not_rejected :
    (List.range 81).length ≠ 80 ∧
    (quark_getpowhash sampleSph ByteOrder.little ⟨true, true⟩ sampleWorld
        [PyObject.bytes (List.range 81)]).map Prod.snd
      = some (PyReturn.object (PyObject.bytes
          [88, 9, 188, 113, 40, 225, 156, 89, 24, 217, 156, 97, 40, 241, 188, 137, 88, 41, 252,
            209, 168, 129, 92, 57, 24, 249, 220, 193, 168, 145, 124, 105])) ∧
    (List.range 79).length ≠ 80 ∧
    (quark_getpowhash sampleSph ByteOrder.little ⟨true, true⟩ sampleWorld
        [PyObject.bytes (List.range 79)]).map Prod.snd
      = some (PyReturn.object (PyObject.bytes
          [209, 116, 25, 192, 105, 20, 193, 112, 33, 212, 137, 64, 249, 180, 113, 48, 241, 180,
            121, 64, 9, 212, 161, 112, 65, 20, 233, 192, 153, 116, 81, 48])) := by
  refine ⟨by decide, by rfl, by decide, by rfl⟩

/-- C3, amended: the code has no length check.  For every bytes argument of at
least 79 bytes, whatever its length, `getPoWHash` (with both allocations
served) returns a 32-byte bytes object, the chain digest of the first 80 bytes
of the object's NUL-terminated buffer; these are the first 80 bytes of the
argument when it has at least 80, and the argument followed by a zero byte when
it has 79. -/
theorem getpowhash_no_size_check (sph : Sph) (bo : ByteOrder) (rt : PyRuntime) (w : World)
    (b : List Nat) (h512 : sph.Is512) (hb : 79 ≤ b.length)
    (hm : rt.malloc_ok = true) (ho : rt.object_ok = true) :
    (∃ w' d, quark_getpowhash sph bo rt w [PyObject.bytes b]
        = some (w', PyReturn.object (PyObject.bytes d)) ∧
      d.length = 32 ∧
      d = specChain sph.blake512.digest sph.bmw512.digest sph.groestl512.digest
            sph.jh512.digest sph.keccak512.digest sph.skein512.digest (branchOf bo)
            ((b ++ [0]).take QUARK_INPUT_SIZE)) ∧
    (80 ≤ b.length → (b ++ [0]).take QUARK_INPUT_SIZE = b.take 80) ∧
    (b.length = 79 → (b ++ [0]).take QUARK_INPUT_SIZE = b ++ [0]) := by
  refine ⟨?_, ?_, ?_⟩
  · obtain ⟨_, w2, _, _, _, _, _, _, hq⟩ := quark_getpowhash_bytes sph bo rt w b h512 hb hm
    rw [ho] at hq
    refine ⟨_, _, hq, ?_, ?_⟩
    · have l9 := (round_lengths sph bo ((b ++ [0]).take 80) h512).2.2.2.2.2.2.2.2
      simp [l9]
    · rw [specChain_eq_round9]; rfl
  · intro h80
    exact List.take_append_of_le_length h80
  · intro h79
    apply List.take_of_length_le
    simp [QUARK_INPUT_SIZE, h79]

/-- Witness for the amended C3 on an 81-byte argument. -/
theorem getpowhash_no_size_check_witness :
    79 ≤ (List.range 81).length ∧ (List.range 81).length ≠ 80 ∧
    ∃ w' d, quark_getpowhash sampleSph ByteOrder.little ⟨true, true⟩ sampleWorld
        [PyObject.bytes (List.range 81)] = some (w', PyReturn.object (PyObject.bytes d)) ∧
      d.length = 32 ∧
      d = specChain sampleSph.blake512.digest sampleSph.bmw512.digest
            sampleSph.groestl512.digest sampleSph.jh512.digest sampleSph.keccak512.digest
            sampleSph.skein512.digest (branchOf ByteOrder.little)
            ((List.range 81 ++ [0]).take QUARK_INPUT_SIZE) :=
  ⟨by decide, by decide,
    (getpowhash_no_size_check sampleSph ByteOrder.little ⟨true, true⟩ sampleWorld
      (List.range 81) sampleSph_is512 (by decide) rfl rfl).1⟩

/-- C4: for every valid call the ninth primitive invocation of the run wrote a
64-byte digest `R9`, and the bytes found at `output` afterwards are exactly 32
bytes, byte for byte bytes 0..31 of `R9`, in order. -/
theorem quark_hash_output_truncates_round9 (sph : Sph) (bo : ByteOrder) (w : World)
    (input output : Ptr) (h ob : List Nat) (h512 : sph.Is512)
    (hin : w.load input QUARK_BLOCK_HEADER_SIZE = some h)
    (hob : w.mem[output.block]? = some (some ob))
    (hlen : output.off + QUARK_OUTPUT_SIZE ≤ ob.length) :
    ∃ w' evs c9 d, quark_hash sph bo w input output = some w' ∧
      w'.trace = w.trace ++ evs ∧
      (hashCalls evs).length = 9 ∧ (hashCalls evs)[8]? = some c9 ∧
      (hashCalls evs).getLast? = some c9 ∧
      c9.digest.length = QUARK_INTERMEDIATE_SIZE ∧
      w'.load output QUARK_OUTPUT_SIZE = some d ∧
      d.length = QUARK_OUTPUT_SIZE ∧
      d = c9.digest.take 32 ∧
      ∀ i, i < 32 → d[i]? = c9.digest[i]? := by
  obtain ⟨w', hq, htr, _, hld⟩ := quark_hash_spec sph bo w input output h ob h512 hin hob hlen
  have l9 := (round_lengths sph bo h h512).2.2.2.2.2.2.2.2
  refine ⟨w', chainTrace sph bo h,
    ⟨if branchOf bo (round8 sph bo h) then Prim.keccak else Prim.jh, 64, round8 sph bo h,
      round9 sph bo h⟩,
    (round9 sph bo h).take 32, hq, htr, ?_, ?_, ?_, ?_, hld, ?_, ?_, ?_⟩
  · rw [hashCalls_chainTrace]; rfl
  · rw [hashCalls_chainTrace]; rfl
  · rw [hashCalls_chainTrace]; rfl
  · exact l9
  · simp [QUARK_OUTPUT_SIZE, l9]
  · rfl
  · intro i hi
    exact List.getElem?_take_of_lt hi

/-- Witness for C4 on the sample memory. -/
theorem quark_hash_output_truncates_round9_witness :
    sampleWorld.load ⟨0, 0⟩ QUARK_BLOCK_HEADER_SIZE = some (List.range 80) ∧
    ∃ w' evs c9 d, quark_hash sampleSph ByteOrder.little sampleWorld ⟨0, 0⟩ ⟨1, 0⟩ = some w' ∧
      w'.trace = sampleWorld.trace ++ evs ∧
      (hashCalls evs).length = 9 ∧ (hashCalls evs)[8]? = some c9 ∧
      (hashCalls evs).getLast? = some c9 ∧
      c9.digest.length = QUARK_INTERMEDIATE_SIZE ∧
      w'.load ⟨1, 0⟩ QUARK_OUTPUT_SIZE = some d ∧
      d.length = QUARK_OUTPUT_SIZE ∧
      d = c9.digest.take 32 ∧
      ∀ i, i < 32 → d[i]? = c9.digest[i]? :=
  ⟨by rfl,
    quark_hash_output_truncates_round9 sampleSph ByteOrder.little sampleWorld ⟨0, 0⟩ ⟨1, 0⟩
      (List.range 80) (List.replicate 40 9) sampleSph_is512 (by rfl) (by rfl) (by decide)⟩

/-- C5, as stated, fails on a big-endian host: for the 64-byte output
`08 00 00 00 00 ..` byte 0 has mask `0x08` set but the branch is not taken, and
changing byte 3 alone (to `08`) changes the decision. -/
theorem branch_decision_big_endian_reads_byte3 :
    (8 :: List.replicate 63 0).length = 64 ∧ (8 &&& 0x08 ≠ 0) ∧
    (evalBranch ByteOrder.big ⟨[some (8 :: List.replicate 63 0)], [], fun _ _ => 0⟩
        ⟨0, 0⟩).map Prod.snd = some false ∧
    (evalBranch ByteOrder.big ⟨[some (8 :: 0 :: 0 :: 8 :: List.replicate 60 0)], [],
        fun _ _ => 0⟩ ⟨0, 0⟩).map Prod.snd = some true := by
  refine ⟨by decide, by decide, by rfl, by rfl⟩

/-- C5, amended: on a 64-byte round output `b` the driver's controlling
expression returns the test of mask `0x08` on word 0 decoded from the first
four bytes of `b` in the byte order of the host.  On a little-endian host the
branch is taken iff `b[0] AND 0x08` is non-zero and no byte other than byte 0
influences the decision; on a big-endian host it is byte 3 that decides. -/
theorem branch_decision_host_order (w : World) (p : Ptr) (b : List Nat)
    (hl : w.load p QUARK_INTERMEDIATE_SIZE = some b) :
    ∃ b0 b1 b2 b3 rest, b = b0 :: b1 :: b2 :: b3 :: rest ∧
      (∀ bo, evalBranch bo w p = some (w.log (Event.branch (branchOf bo b)), branchOf bo b) ∧
        branchOf bo b = ((decode32 bo b0 b1 b2 b3 &&& 0x08) != 0)) ∧
      (branchOf ByteOrder.little b = true ↔ b0 &&& 0x08 ≠ 0) ∧
      (∀ b2nd : List Nat, b2nd.length = 64 → b2nd[0]? = some b0 →
        branchOf ByteOrder.little b2nd = branchOf ByteOrder.little b) ∧
      (branchOf ByteOrder.big b = true ↔ b3 &&& 0x08 ≠ 0) := by
  have hlen : b.length = 64 := load_length w p _ b hl
  have h8 : QUARK_BRANCH_MASK = 0x08 := by decide
  have hlittle : ∀ (c0 c1 c2 c3 : Nat) (t : List Nat),
      branchOf ByteOrder.little (c0 :: c1 :: c2 :: c3 :: t) = c0.testBit 3 := by
    intro c0 c1 c2 c3 t
    rw [branchOf_cons, and_mask_ne_zero, decode32_little_bit3]
  match b, hlen, hl with
  | b0 :: b1 :: b2 :: b3 :: rest, hlen, hl =>
    refine ⟨b0, b1, b2, b3, rest, rfl, ?_, ?_, ?_, ?_⟩
    · intro bo
      refine ⟨evalBranch_of_load bo w p _ hl, ?_⟩
      rw [branchOf_cons, h8]
    · rw [hlittle, ← and_mask_ne_zero, h8]
      simp
    · intro b2nd hlen2 h0
      match b2nd, hlen2, h0 with
      | c0 :: c1 :: c2 :: c3 :: t, _, h0 =>
        have hc : c0 = b0 := by simpa using h0
        rw [hlittle, hlittle, hc]
    · rw [branchOf_cons, and_mask_ne_zero, decode32_big_bit3, ← and_mask_ne_zero, h8]
      simp

/-- Witness for the amended C5: the 64 bytes of block 0 of the sample memory. -/
theorem branch_decision_host_order_witness :
    sampleWorld.load ⟨0, 0⟩ QUARK_INTERMEDIATE_SIZE = some (List.range 64) ∧
    ∃ b0 b1 b2 b3 rest, List.range 64 = b0 :: b1 :: b2 :: b3 :: rest ∧
      (∀ bo, evalBranch bo sampleWorld ⟨0, 0⟩
          = some (sampleWorld.log (Event.branch (branchOf bo (List.range 64))),
              branchOf bo (List.range 64)) ∧
        branchOf bo (List.range 64) = ((decode32 bo b0 b1 b2 b3 &&& 0x08) != 0)) ∧
      (branchOf ByteOrder.little (List.range 64) = true ↔ b0 &&& 0x08 ≠ 0) ∧
      (∀ b2nd : List Nat, b2nd.length = 64 → b2nd[0]? = some b0 →
        branchOf ByteOrder.little b2nd = branchOf ByteOrder.little (List.range 64)) ∧
      (branchOf ByteOrder.big (List.range 64) = true ↔ b3 &&& 0x08 ≠ 0) :=
  ⟨by rfl, branch_decision_host_order sampleWorld ⟨0, 0⟩ (List.range 64) (by rfl)⟩

/-- C6: `quark_hash` is deterministic and stateless.  Two calls on the same 80
header bytes, made in arbitrary machine states (other memory contents, other
indeterminate stack contents, other earlier trace, other buffer addresses), both
return, leave the same 32 bytes at their output, and invoke the same sequence of
primitives on the same data. -/
theorem quark_hash_deterministic (sph : Sph) (bo : ByteOrder) (w1 w2 : World)
    (in1 out1 in2 out2 : Ptr) (h ob1 ob2 : List Nat) (h512 : sph.Is512)
    (hin1 : w1.load in1 QUARK_BLOCK_HEADER_SIZE = some h)
    (hin2 : w2.load in2 QUARK_BLOCK_HEADER_SIZE = some h)
    (hob1 : w1.mem[out1.block]? = some (some ob1))
    (hlen1 : out1.off + QUARK_OUTPUT_SIZE ≤ ob1.length)
    (hob2 : w2.mem[out2.block]? = some (some ob2))
    (hlen2 : out2.off + QUARK_OUTPUT_SIZE ≤ ob2.length) :
    ∃ r1 r2 d evs,
      quark_hash sph bo w1 in1 out1 = some r1 ∧ quark_hash sph bo w2 in2 out2 = some r2 ∧
      r1.load out1 QUARK_OUTPUT_SIZE = some d ∧ r2.load out2 QUARK_OUTPUT_SIZE = some d ∧
      d.length = 32 ∧
      r1.trace = w1.trace ++ evs ∧ r2.trace = w2.trace ++ evs := by
  obtain ⟨r1, hq1, htr1, _, hld1⟩ :=
    quark_hash_spec sph bo w1 in1 out1 h ob1 h512 hin1 hob1 hlen1
  obtain ⟨r2, hq2, htr2, _, hld2⟩ :=
    quark_hash_spec sph bo w2 in2 out2 h ob2 h512 hin2 hob2 hlen2
  have l9 := (round_lengths sph bo h h512).2.2.2.2.2.2.2.2
  exact ⟨r1, r2, _, _, hq1, hq2, hld1, hld2, by simp [l9], htr1, htr2⟩

/-- Witness for C6: the sample memory against `sampleWorld2`. -/
theorem quark_hash_deterministic_witness :
    sampleWorld.load ⟨0, 0⟩ QUARK_BLOCK_HEADER_SIZE = some (List.range 80) ∧
    sampleWorld2.load ⟨1, 1⟩ QUARK_BLOCK_HEADER_SIZE = some (List.range 80) ∧
    ∃ r1 r2 d evs,
      quark_hash sampleSph ByteOrder.little sampleWorld ⟨0, 0⟩ ⟨1, 0⟩ = some r1 ∧
      quark_hash sampleSph ByteOrder.little sampleWorld2 ⟨1, 1⟩ ⟨0, 0⟩ = some r2 ∧
      r1.load ⟨1, 0⟩ QUARK_OUTPUT_SIZE = some d ∧ r2.load ⟨0, 0⟩ QUARK_OUTPUT_SIZE = some d ∧
      d.length = 32 ∧
      r1.trace = sampleWorld.trace ++ evs ∧ r2.trace = sampleWorld2.trace ++ evs :=
  ⟨by rfl, by rfl,
    quark_hash_deterministic sampleSph ByteOrder.little sampleWorld sampleWorld2
      ⟨0, 0⟩ ⟨1, 0⟩ ⟨1, 1⟩ ⟨0, 0⟩ (List.range 80) (List.replicate 40 9) (List.replicate 32 1)
      sampleSph_is512 (by rfl) (by rfl) (by rfl) (by decide) (by rfl) (by decide)⟩

/-- C7: with primitives that write 64-byte digests, on every branch path each of
the nine rounds leaves a 64-byte value (sixteen 32-bit words), and each of
rounds 2 to 9 hands its primitive exactly 64 bytes, which are exactly the value
the previous round left. -/
theorem quark_hash_intermediates_64 (sph : Sph) (bo : ByteOrder) (w : World)
    (input output : Ptr) (h ob : List Nat) (h512 : sph.Is512)
    (hin : w.load input QUARK_BLOCK_HEADER_SIZE = some h)
    (hob : w.mem[output.block]? = some (some ob))
    (hlen : output.off + QUARK_OUTPUT_SIZE ≤ ob.length) :
    QUARK_INTERMEDIATE_SIZE = 4 * HASH_BUFFER_UINT32_LEN ∧
    ∃ w' evs, quark_hash sph bo w input output = some w' ∧
      w'.trace = w.trace ++ evs ∧
      (hashCalls evs).length = 9 ∧
      (∀ c ∈ hashCalls evs, c.digest.length = QUARK_INTERMEDIATE_SIZE) ∧
      (∀ c ∈ (hashCalls evs).tail,
        c.len = QUARK_INTERMEDIATE_SIZE ∧ c.data.length = QUARK_INTERMEDIATE_SIZE) ∧
      List.Chain' (fun c c2 : HashCall => c2.data = c.digest) (hashCalls evs) := by
  refine ⟨by decide, ?_⟩
  obtain ⟨w', hq, htr, _, _⟩ := quark_hash_spec sph bo w input output h ob h512 hin hob hlen
  obtain ⟨l1, l2, l3, l4, l5, l6, l7, l8, l9⟩ := round_lengths sph bo h h512
  refine ⟨w', chainTrace sph bo h, hq, htr, ?_, ?_, ?_, ?_⟩
  · rw [hashCalls_chainTrace]; rfl
  · rw [hashCalls_chainTrace]
    intro c hc
    simp only [List.mem_cons, List.mem_singleton, List.not_mem_nil, or_false] at hc
    rcases hc with hc | hc | hc | hc | hc | hc | hc | hc | hc <;> subst hc <;>
      simp only [QUARK_INTERMEDIATE_SIZE] <;> assumption
  · rw [hashCalls_chainTrace]
    intro c hc
    simp only [List.tail_cons, List.mem_cons, List.mem_singleton, List.not_mem_nil,
      or_false] at hc
    rcases hc with hc | hc | hc | hc | hc | hc | hc | hc <;> subst hc <;>
      simp only [QUARK_INTERMEDIATE_SIZE, true_and] <;> assumption
  · rw [hashCalls_chainTrace]
    simp [List.Chain']

/-- Witness for C7 on the sample memory. -/
theorem quark_hash_intermediates_64_witness :
    sampleWorld.load ⟨0, 0⟩ QUARK_BLOCK_HEADER_SIZE = some (List.range 80) ∧
    ∃ w' evs, quark_hash sampleSph ByteOrder.little sampleWorld ⟨0, 0⟩ ⟨1, 0⟩ = some w' ∧
      w'.trace = sampleWorld.trace ++ evs ∧
      (hashCalls evs).length = 9 ∧
      (∀ c ∈ hashCalls evs, c.digest.length = QUARK_INTERMEDIATE_SIZE) ∧
      (∀ c ∈ (hashCalls evs).tail,
        c.len = QUARK_INTERMEDIATE_SIZE ∧ c.data.length = QUARK_INTERMEDIATE_SIZE) ∧
      List.Chain' (fun c c2 : HashCall => c2.data = c.digest) (hashCalls evs) :=
  ⟨by rfl,
    (quark_hash_intermediates_64 sampleSph ByteOrder.little sampleWorld ⟨0, 0⟩ ⟨1, 0⟩
      (List.range 80) (List.replicate 40 9) sampleSph_is512 (by rfl) (by rfl) (by decide)).2⟩

/-- C9: one call performs exactly nine primitive invocations and exactly three
evaluations of the branch predicate, in the order two invocations, evaluation,
three invocations, evaluation, three invocations, evaluation, one invocation;
the evaluations are made on the outputs of rounds 2, 5 and 8; the first
invocation is handed length 80 and the other eight length 64. -/
theorem quark_hash_nine_rounds_three_branches (sph : Sph) (bo : ByteOrder) (w : World)
    (input output : Ptr) (h ob : List Nat) (h512 : sph.Is512)
    (hin : w.load input QUARK_BLOCK_HEADER_SIZE = some h)
    (hob : w.mem[output.block]? = some (some ob))
    (hlen : output.off + QUARK_OUTPUT_SIZE ≤ ob.length) :
    QUARK_TOTAL_ROUNDS = 9 ∧ QUARK_CONDITIONAL_ROUNDS = 3 ∧
    ∃ w' evs, quark_hash sph bo w input output = some w' ∧
      w'.trace = w.trace ++ evs ∧
      (hashCalls evs).length = QUARK_TOTAL_ROUNDS ∧
      (branchEvals evs).length = QUARK_CONDITIONAL_ROUNDS ∧
      (hashCalls evs).map (fun c => c.len) = 80 :: List.replicate 8 64 ∧
      evs.map Event.isHash
        = [true, true, false, true, true, true, false, true, true, true, false, true] ∧
      ∃ c2 c5 c8, (hashCalls evs)[1]? = some c2 ∧ (hashCalls evs)[4]? = some c5 ∧
        (hashCalls evs)[7]? = some c8 ∧
        branchEvals evs = [branchOf bo c2.digest, branchOf bo c5.digest, branchOf bo c8.digest] := by
  refine ⟨by decide, by decide, ?_⟩
  obtain ⟨w', hq, htr, _, _⟩ := quark_hash_spec sph bo w input output h ob h512 hin hob hlen
  refine ⟨w', chainTrace sph bo h, hq, htr, ?_, ?_, ?_, ?_, ?_⟩
  · rw [hashCalls_chainTrace]; rfl
  · rw [branchEvals_chainTrace]; rfl
  · rw [hashCalls_chainTrace]; rfl
  · rfl
  · rw [hashCalls_chainTrace, branchEvals_chainTrace]
    exact ⟨_, _, _, rfl, rfl, rfl, rfl⟩

/-- Witness for C9 on the sample memory. -/
theorem quark_hash_nine_rounds_three_branches_witness :
    sampleWorld.load ⟨0, 0⟩ QUARK_BLOCK_HEADER_SIZE = some (List.range 80) ∧
    ∃ w' evs, quark_hash sampleSph ByteOrder.little sampleWorld ⟨0, 0⟩ ⟨1, 0⟩ = some w' ∧
      w'.trace = sampleWorld.trace ++ evs ∧
      (hashCalls evs).length = QUARK_TOTAL_ROUNDS ∧
      (branchEvals evs).length = QUARK_CONDITIONAL_ROUNDS ∧
      (hashCalls evs).map (fun c => c.len) = 80 :: List.replicate 8 64 ∧
      evs.map Event.isHash
        = [true, true, false, true, true, true, false, true, true, true, false, true] ∧
      ∃ c2 c5 c8, (hashCalls evs)[1]? = some c2 ∧ (hashCalls evs)[4]? = some c5 ∧
        (hashCalls evs)[7]? = some c8 ∧
        branchEvals evs = [branchOf ByteOrder.little c2.digest,
          branchOf ByteOrder.little c5.digest, branchOf ByteOrder.little c8.digest] :=
  ⟨by rfl,
    (quark_hash_nine_rounds_three_branches sampleSph ByteOrder.little sampleWorld ⟨0, 0⟩
      ⟨1, 0⟩ (List.range 80) (List.replicate 40 9) sampleSph_is512 (by rfl) (by rfl)
      (by decide)).2.2⟩

set_option maxRecDepth 100000 in
/-- C10, as stated, fails: called in place (`output` equal to `input`) on the
sample memory, `quark_hash` overwrites the first 32 bytes of the input buffer
with the digest. -/
theorem quark_hash_in_place_overwrites_input :
    sampleWorld.load ⟨0, 0⟩ 80 = some (List.range 80) ∧
    (quark_hash sampleSph ByteOrder.little sampleWorld ⟨0, 0⟩ ⟨0, 0⟩).bind
        (fun r => r.load ⟨0, 0⟩ 80)
      = some ([88, 9, 188, 113, 40, 225, 156, 89, 24, 217, 156, 97, 40, 241, 188, 137, 88, 41,
          252, 209, 168, 129, 92, 57, 24, 249, 220, 193, 168, 145, 124, 105] ++
          (List.range 80).drop 32) := by
  refine ⟨by rfl, by rfl⟩

/-- C10, amended: a call of `quark_hash` changes no caller-visible memory other
than bytes 0..31 of the output buffer: every other block is unchanged, the
output block keeps its length and all its bytes below `output` and from index 32
of the output buffer on, and the two local buffers are dead on return.  The
input buffer is unchanged whenever it does not overlap those 32 output bytes. -/
theorem quark_hash_frame (sph : Sph) (bo : ByteOrder) (w : World) (input output : Ptr)
    (h ob : List Nat) (h512 : sph.Is512)
    (hin : w.load input QUARK_BLOCK_HEADER_SIZE = some h)
    (hob : w.mem[output.block]? = some (some ob))
    (hlen : output.off + QUARK_OUTPUT_SIZE ≤ ob.length) :
    ∃ w' ob2, quark_hash sph bo w input output = some w' ∧
      w'.mem.length = w.mem.length + 2 ∧
      w'.mem[w.mem.length]? = some none ∧ w'.mem[w.mem.length + 1]? = some none ∧
      (∀ blk, blk < w.mem.length → blk ≠ output.block → w'.mem[blk]? = w.mem[blk]?) ∧
      w'.mem[output.block]? = some (some ob2) ∧ ob2.length = ob.length ∧
      (∀ i, i < output.off ∨ output.off + QUARK_OUTPUT_SIZE ≤ i → ob2[i]? = ob[i]?) ∧
      ((input.block ≠ output.block ∨ input.off + QUARK_BLOCK_HEADER_SIZE ≤ output.off ∨
          output.off + QUARK_OUTPUT_SIZE ≤ input.off) →
        w'.load input QUARK_BLOCK_HEADER_SIZE = some h) := by
  simp only [QUARK_BLOCK_HEADER_SIZE, QUARK_OUTPUT_SIZE] at hin hlen ⊢
  obtain ⟨w', hq, _, hmem, _⟩ := quark_hash_spec sph bo w input output h ob h512 hin hob hlen
  have l9 := (round_lengths sph bo h h512).2.2.2.2.2.2.2.2
  have hd : ((round9 sph bo h).take 32).length = 32 := by simp [l9]
  have hko : output.block < w.mem.length := by
    by_contra hc
    rw [List.getElem?_eq_none (by omega)] at hob
    cases hob
  have hsl : (w.mem.set output.block (some (ob.take output.off ++ (round9 sph bo h).take 32 ++
      ob.drop (output.off + 32)))).length = w.mem.length := List.length_set ..
  have hout : ∀ i, i < output.off ∨ output.off + 32 ≤ i →
      (ob.take output.off ++ (round9 sph bo h).take 32 ++ ob.drop (output.off + 32))[i]?
        = ob[i]? := by
    intro i hi
    have := splice_outside ob ((round9 sph bo h).take 32) output.off i (by omega)
      (by rw [hd]; exact hi)
    rw [hd] at this
    exact this
  have hlen2 : (ob.take output.off ++ (round9 sph bo h).take 32 ++
      ob.drop (output.off + 32)).length = ob.length := by
    have := splice_length ob ((round9 sph bo h).take 32) output.off (by omega)
    rw [hd] at this
    exact this
  have hblk : w'.mem[output.block]? = some (some (ob.take output.off ++
      (round9 sph bo h).take 32 ++ ob.drop (output.off + 32))) := by
    rw [hmem, List.getElem?_append_left (by omega), List.getElem?_set_self hko]
  have hother : ∀ blk, blk < w.mem.length → blk ≠ output.block →
      w'.mem[blk]? = w.mem[blk]? := by
    intro blk hb hne
    rw [hmem, List.getElem?_append_left (by omega), List.getElem?_set_ne (Ne.symm hne)]
  refine ⟨w', _, hq, ?_, ?_, ?_, hother, hblk, hlen2, hout, ?_⟩
  · rw [hmem]; simp
  · rw [hmem, ← hsl]; exact getElem?_frame0 _ _ _
  · rw [hmem, ← hsl]; exact getElem?_frame1 _ _ _
  · intro hsep
    by_cases hbe : input.block = output.block
    · have hsep2 : input.off + 80 ≤ output.off ∨ output.off + 32 ≤ input.off := by
        rcases hsep with h1 | h1 | h1
        · exact absurd hbe h1
        · exact Or.inl h1
        · exact Or.inr h1
      unfold World.load at hin ⊢
      rw [hbe] at hin ⊢
      rw [hob] at hin
      rw [hblk]
      simp only at hin ⊢
      by_cases hle : input.off + 80 ≤ ob.length
      · rw [if_pos hle] at hin
        rw [if_pos (by rw [hlen2]; exact hle)]
        rw [← hin]
        congr 1
        apply take_drop_congr
        intro j hj1 hj2
        apply hout
        omega
      · rw [if_neg hle] at hin; cases hin
    · have hib : input.block < w.mem.length := by
        by_contra hc
        unfold World.load at hin
        rw [List.getElem?_eq_none (by omega)] at hin
        cases hin
      rw [load_congr w w' input 80 (hother input.block hib hbe)]
      exact hin

/-- Witness for the amended C10 on the sample memory, with separate buffers. -/
theorem quark_hash_frame_witness :
    sampleWorld.load ⟨0, 0⟩ QUARK_BLOCK_HEADER_SIZE = some (List.range 80) ∧
    ∃ w' ob2, quark_hash sampleSph ByteOrder.little sampleWorld ⟨0, 0⟩ ⟨1, 0⟩ = some w' ∧
      w'.mem.length = sampleWorld.mem.length + 2 ∧
      w'.mem[sampleWorld.mem.length]? = some none ∧
      w'.mem[sampleWorld.mem.length + 1]? = some none ∧
      (∀ blk, blk < sampleWorld.mem.length → blk ≠ 1 → w'.mem[blk]? = sampleWorld.mem[blk]?) ∧
      w'.mem[1]? = some (some ob2) ∧ ob2.length = (List.replicate 40 9).length ∧
      (∀ i, i < 0 ∨ 0 + QUARK_OUTPUT_SIZE ≤ i → ob2[i]? = (List.replicate 40 9)[i]?) ∧
      (((0 : Nat) ≠ 1 ∨ 0 + QUARK_BLOCK_HEADER_SIZE ≤ 0 ∨ 0 + QUARK_OUTPUT_SIZE ≤ 0) →
        w'.load ⟨0, 0⟩ QUARK_BLOCK_HEADER_SIZE = some (List.range 80)) :=
  ⟨by rfl,
    quark_hash_frame sampleSph ByteOrder.little sampleWorld ⟨0, 0⟩ ⟨1, 0⟩ (List.range 80)
      (List.replicate 40 9) sampleSph_is512 (by rfl) (by rfl) (by decide)⟩

/-- C11: when `PyMem_Malloc` returns `NULL` for the 32-byte output buffer,
`getPoWHash` returns `NULL` with `MemoryError` set and no digest; the machine
state, ghost trace included, is the one before the call, and the outcome is the
same for every primitive provider and byte order and for every bytes argument,
also one on which `quark_hash` would have no defined result: `quark_hash` is not
invoked. -/
theorem getpowhash_allocation_failure (sph : Sph) (bo : ByteOrder) (rt : PyRuntime)
    (w : World) (b : List Nat)
    (hnull : (PyMem_Malloc rt w QUARK_DIGEST_SIZE).2 = none) :
    quark_getpowhash sph bo rt w [PyObject.bytes b]
      = some (w, PyReturn.null PyExc.MemoryError) ∧
    (∀ r, quark_getpowhash sph bo rt w [PyObject.bytes b] = some r →
      (∀ o, r.2 ≠ PyReturn.object o) ∧ r.1.trace = w.trace ∧ r.1.mem = w.mem) ∧
    (∀ (sph2 : Sph) (bo2 : ByteOrder) (b2 : List Nat),
      quark_getpowhash sph2 bo2 rt w [PyObject.bytes b2]
        = quark_getpowhash sph bo rt w [PyObject.bytes b]) := by
  have hm : rt.malloc_ok = false := (malloc_null_iff rt w QUARK_DIGEST_SIZE).1 hnull
  have hres := quark_getpowhash_malloc_null sph bo rt w b hm
  refine ⟨hres, ?_, ?_⟩
  · intro r hr
    rw [hres] at hr
    cases hr
    exact ⟨fun o ho => (by cases ho), rfl, rfl⟩
  · intro sph2 bo2 b2
    rw [hres, quark_getpowhash_malloc_null sph2 bo2 rt w b2 hm]

/-- Witness for C11: the allocator refuses the output buffer; the argument is
the empty bytes object, on which a call of `quark_hash` would be undefined. -/
theorem getpowhash_allocation_failure_witness :
    (PyMem_Malloc ⟨false, true⟩ sampleWorld QUARK_DIGEST_SIZE).2 = none ∧
    quark_getpowhash sampleSph ByteOrder.little ⟨false, true⟩ sampleWorld [PyObject.bytes []]
      = some (sampleWorld, PyReturn.null PyExc.MemoryError) :=
  ⟨rfl,
    (getpowhash_allocation_failure sampleSph ByteOrder.little ⟨false, true⟩ sampleWorld []
      rfl).1⟩

/-- C13: the digest depends only on the first 80 bytes of the input.  For two
byte sequences of at least 80 bytes that agree on bytes 0..79, `quark_hash` on
buffers holding them, and `getPoWHash` on bytes objects holding them, all
return the same 32-byte digest, in whatever machine states the calls are made;
bytes at index 80 or above are not read. -/
theorem digest_ignores_bytes_from_80 (sph : Sph) (bo : ByteOrder) (rt : PyRuntime)
    (w1 w2 : World) (in1 out1 in2 out2 : Ptr) (b1 b2 ob1 ob2 : List Nat) (h512 : sph.Is512)
    (hb1 : 80 ≤ b1.length) (hb2 : 80 ≤ b2.length)
    (hagree : ∀ i, i < 80 → b1[i]? = b2[i]?)
    (hin1 : w1.load in1 b1.length = some b1) (hin2 : w2.load in2 b2.length = some b2)
    (hob1 : w1.mem[out1.block]? = some (some ob1))
    (hlen1 : out1.off + QUARK_OUTPUT_SIZE ≤ ob1.length)
    (hob2 : w2.mem[out2.block]? = some (some ob2))
    (hlen2 : out2.off + QUARK_OUTPUT_SIZE ≤ ob2.length)
    (hm : rt.malloc_ok = true) (ho : rt.object_ok = true) :
    ∃ d, d.length = 32 ∧
      (∃ r1 r2, quark_hash sph bo w1 in1 out1 = some r1 ∧
        quark_hash sph bo w2 in2 out2 = some r2 ∧
        r1.load out1 QUARK_OUTPUT_SIZE = some d ∧ r2.load out2 QUARK_OUTPUT_SIZE = some d) ∧
      (∃ v1 v2, quark_getpowhash sph bo rt w1 [PyObject.bytes b1]
          = some (v1, PyReturn.object (PyObject.bytes d)) ∧
        quark_getpowhash sph bo rt w2 [PyObject.bytes b2]
          = some (v2, PyReturn.object (PyObject.bytes d))) := by
  have ht : b1.take 80 = b2.take 80 := take_eq_of_agree b1 b2 80 hagree
  have l9 := (round_lengths sph bo (b1.take 80) h512).2.2.2.2.2.2.2.2
  have h1 := load_prefix w1 in1 b1.length 80 b1 hb1 hin1
  have h2 := load_prefix w2 in2 b2.length 80 b2 hb2 hin2
  rw [← ht] at h2
  obtain ⟨r1, hq1, _, _, hld1⟩ :=
    quark_hash_spec sph bo w1 in1 out1 (b1.take 80) ob1 h512 h1 hob1 hlen1
  obtain ⟨r2, hq2, _, _, hld2⟩ :=
    quark_hash_spec sph bo w2 in2 out2 (b1.take 80) ob2 h512 h2 hob2 hlen2
  obtain ⟨_, u1, _, _, _, _, _, _, hg1⟩ :=
    quark_getpowhash_bytes sph bo rt w1 b1 h512 (by omega) hm
  obtain ⟨_, u2, _, _, _, _, _, _, hg2⟩ :=
    quark_getpowhash_bytes sph bo rt w2 b2 h512 (by omega) hm
  rw [ho, if_pos rfl, List.take_append_of_le_length hb1] at hg1
  rw [ho, if_pos rfl, List.take_append_of_le_length hb2, ← ht] at hg2
  exact ⟨(round9 sph bo (b1.take 80)).take 32, by simp [l9], ⟨r1, r2, hq1, hq2, hld1, hld2⟩,
    ⟨_, _, hg1, hg2⟩⟩

/-- Witness for C13: the 80-byte header of the sample memory against the
100-byte buffer of `sampleWorld3`, which continues the same header with twenty
bytes `255`. -/
theorem digest_ignores_bytes_from_80_witness :
    (List.range 80 ++ List.replicate 20 255).length = 100 ∧
    sampleWorld3.load ⟨0, 0⟩ 100 = some (List.range 80 ++ List.replicate 20 255) ∧
    ∃ d, d.length = 32 ∧
      (∃ r1 r2, quark_hash sampleSph ByteOrder.little sampleWorld ⟨0, 0⟩ ⟨1, 0⟩ = some r1 ∧
        quark_hash sampleSph ByteOrder.little sampleWorld3 ⟨0, 0⟩ ⟨1, 0⟩ = some r2 ∧
        r1.load ⟨1, 0⟩ QUARK_OUTPUT_SIZE = some d ∧ r2.load ⟨1, 0⟩ QUARK_OUTPUT_SIZE = some d) ∧
      (∃ v1 v2, quark_getpowhash sampleSph ByteOrder.little ⟨true, true⟩ sampleWorld
          [PyObject.bytes (List.range 80)] = some (v1, PyReturn.object (PyObject.bytes d)) ∧
        quark_getpowhash sampleSph ByteOrder.little ⟨true, true⟩ sampleWorld3
          [PyObject.bytes (List.range 80 ++ List.replicate 20 255)]
          = some (v2, PyReturn.object (PyObject.bytes d))) :=
  ⟨by decide, by rfl,
    digest_ignores_bytes_from_80 sampleSph ByteOrder.little ⟨true, true⟩ sampleWorld
      sampleWorld3 ⟨0, 0⟩ ⟨1, 0⟩ ⟨0, 0⟩ ⟨1, 0⟩ (List.range 80)
      (List.range 80 ++ List.replicate 20 255) (List.replicate 40 9) (List.replicate 32 0)
      sampleSph_is512 (by decide) (by decide)
      (fun i hi => (List.getElem?_append_left (by simpa using hi)).symm)
      (by rfl) (by rfl) (by rfl) (by decide) (by rfl) (by decide) rfl rfl⟩

set_option maxRecDepth 100000 in
/-- C14, as stated, fails for the binding: for a 32-byte bytes argument, whose
buffer holds 33 bytes, the read of `QUARK_BLOCK_HEADER_SIZE` bytes that
`quark_hash` makes at `PyBytes_AS_STRING(input)` is out of range, and the call
has no defined result. -/
theorem getpowhash_input_read_out_of_range :
    (PyBytes_AS_STRING (PyMem_Malloc ⟨true, true⟩ sampleWorld QUARK_DIGEST_SIZE).1
        (List.range 32)).1.mem[(PyBytes_AS_STRING
          (PyMem_Malloc ⟨true, true⟩ sampleWorld QUARK_DIGEST_SIZE).1 (List.range 32)).2.block]?
      = some (some (List.range 32 ++ [0])) ∧
    (List.range 32 ++ [0]).length < QUARK_BLOCK_HEADER_SIZE ∧
    (PyBytes_AS_STRING (PyMem_Malloc ⟨true, true⟩ sampleWorld QUARK_DIGEST_SIZE).1
        (List.range 32)).1.load
        (PyBytes_AS_STRING (PyMem_Malloc ⟨true, true⟩ sampleWorld QUARK_DIGEST_SIZE).1
          (List.range 32)).2 QUARK_BLOCK_HEADER_SIZE = none ∧
    (quark_getpowhash sampleSph ByteOrder.little ⟨true, true⟩ sampleWorld
        [PyObject.bytes (List.range 32)]).isNone = true := by
  refine ⟨by rfl, by decide, by rfl, by rfl⟩

/-- C14, amended: the size constants are mutually consistent, and with them
every access to a `Hash512` buffer and to the output buffer is in range: a call
of `quark_hash` on an input buffer of `QUARK_INPUT_SIZE` bytes and an output
buffer of `QUARK_DIGEST_SIZE` bytes is defined, each of rounds 2 to 9 reads all
64 bytes of a `Hash512`, the three predicate reads succeed and the final copy
delivers `QUARK_OUTPUT_SIZE` bytes; a call of `getPoWHash` is defined for every
bytes argument whose buffer (the bytes and the trailing NUL) holds
`QUARK_INPUT_SIZE` bytes. -/
theorem buffer_accesses_in_range (sph : Sph) (bo : ByteOrder) (rt : PyRuntime)
    (w wb : World) (input output : Ptr) (h ob b : List Nat) (h512 : sph.Is512)
    (hin : w.load input QUARK_INPUT_SIZE = some h)
    (hob : w.mem[output.block]? = some (some ob))
    (hlen : output.off + QUARK_DIGEST_SIZE ≤ ob.length)
    (hb : QUARK_INPUT_SIZE ≤ (b ++ [0]).length) :
    (QUARK_DIGEST_SIZE = QUARK_OUTPUT_SIZE ∧ QUARK_OUTPUT_SIZE = 32 ∧
      QUARK_INPUT_SIZE = QUARK_BLOCK_HEADER_SIZE ∧ QUARK_BLOCK_HEADER_SIZE = 80 ∧
      QUARK_INTERMEDIATE_SIZE = 4 * HASH_BUFFER_UINT32_LEN ∧ QUARK_INTERMEDIATE_SIZE = 64 ∧
      QUARK_OUTPUT_SIZE ≤ QUARK_INTERMEDIATE_SIZE) ∧
    (∃ w' evs d, quark_hash sph bo w input output = some w' ∧
      w'.trace = w.trace ++ evs ∧
      (hashCalls evs).tail.length = 8 ∧
      (∀ c ∈ (hashCalls evs).tail,
        c.len = QUARK_INTERMEDIATE_SIZE ∧ c.data.length = QUARK_INTERMEDIATE_SIZE) ∧
      (branchEvals evs).length = QUARK_CONDITIONAL_ROUNDS ∧
      w'.load output QUARK_OUTPUT_SIZE = some d ∧ d.length = QUARK_OUTPUT_SIZE) ∧
    (∃ r, quark_getpowhash sph bo rt wb [PyObject.bytes b] = some r) := by
  refine ⟨by decide, ?_, ?_⟩
  · simp only [QUARK_INPUT_SIZE, QUARK_DIGEST_SIZE] at hin hlen
    obtain ⟨w', hq, htr, _, hld⟩ := quark_hash_spec sph bo w input output h ob h512 hin hob hlen
    obtain ⟨l1, l2, l3, l4, l5, l6, l7, l8, l9⟩ := round_lengths sph bo h h512
    refine ⟨w', chainTrace sph bo h, (round9 sph bo h).take 32, hq, htr, ?_, ?_, ?_, hld, ?_⟩
    · rw [hashCalls_chainTrace]; rfl
    · rw [hashCalls_chainTrace]
      intro c hc
      simp only [List.tail_cons, List.mem_cons, List.mem_singleton, List.not_mem_nil,
        or_false] at hc
      rcases hc with hc | hc | hc | hc | hc | hc | hc | hc <;> subst hc <;>
        simp only [QUARK_INTERMEDIATE_SIZE, true_and] <;> assumption
    · rw [branchEvals_chainTrace]; rfl
    · simp [QUARK_OUTPUT_SIZE, l9]
  · have hb79 : 79 ≤ b.length := by
      simp only [QUARK_INPUT_SIZE, List.length_append, List.length_singleton] at hb
      omega
    exact quark_getpowhash_defined sph bo rt wb b h512 hb79

/-- Witness for the amended C14: the sample memory for the driver, an 80-byte
bytes argument for the binding. -/
theorem buffer_accesses_in_range_witness :
    sampleWorld.load ⟨0, 0⟩ QUARK_INPUT_SIZE = some (List.range 80) ∧
    QUARK_INPUT_SIZE ≤ (List.range 80 ++ [0]).length ∧
    (∃ w' evs d, quark_hash sampleSph ByteOrder.little sampleWorld ⟨0, 0⟩ ⟨1, 0⟩ = some w' ∧
      w'.trace = sampleWorld.trace ++ evs ∧
      (hashCalls evs).tail.length = 8 ∧
      (∀ c ∈ (hashCalls evs).tail,
        c.len = QUARK_INTERMEDIATE_SIZE ∧ c.data.length = QUARK_INTERMEDIATE_SIZE) ∧
      (branchEvals evs).length = QUARK_CONDITIONAL_ROUNDS ∧
      w'.load ⟨1, 0⟩ QUARK_OUTPUT_SIZE = some d ∧ d.length = QUARK_OUTPUT_SIZE) ∧
    (∃ r, quark_getpowhash sampleSph ByteOrder.little ⟨true, true⟩ sampleWorld
        [PyObject.bytes (List.range 80)] = some r) :=
  ⟨by rfl, by decide,
    (buffer_accesses_in_range sampleSph ByteOrder.little ⟨true, true⟩ sampleWorld sampleWorld
      ⟨0, 0⟩ ⟨1, 0⟩ (List.range 80) (List.replicate 40 9) (List.range 80) sampleSph_is512
      (by rfl) (by rfl) (by decide) (by decide)).2⟩

end Quark
